import Mathlib

/-!
Verification of the Career-huntin job-search pipeline.

This file gives a shallow embedding, in Lean 4, of the core services of the
repository (src/app/services and src/app/models.py) and proves the frozen
claims about them.  The persistent store (SQLAlchemy session + SQLite tables)
is modelled as an explicit record of entity lists; every service function
becomes a pure state-passing function on that record.  Python floats are
modelled as rationals; Python string methods map to kernel-evaluable
character-list operations (strLower, strTrim, strContains).  Timestamps,
auto-generated primary keys not consulted by the code, and free-form JSON
observability payloads (AuditLog.details, JobRecord.raw_data,
CandidateProfile.raw_profile, CVVariant.metadata) are omitted: no pipeline
logic reads them.  Primary-key generation is modelled by a single
monotone `next_id` counter, which preserves the only property the code
relies on (freshness / uniqueness of ids).
-/

namespace CareerHuntin

/-- Does the first character list start with the second one? -/
def charsHavePre : List Char → List Char → Bool
  | _, [] => true
  | [], _ :: _ => false
  | b :: bs, a :: as => a == b && charsHavePre bs as

/-- Does some suffix of the first list start with the second list? -/
def charsHaveSub : List Char → List Char → Bool
  | [], sub => sub.isEmpty
  | b :: bs, sub => charsHavePre (b :: bs) sub || charsHaveSub bs sub

/-- Python's substring test `sub in s`, as used throughout the services
(`"transient" in job.company.lower()`, `domain.lower() in job.apply_url.lower()`,
and so on).  The empty string is a substring of everything, as in Python. -/
def strContains (s sub : String) : Bool :=
  charsHaveSub s.data sub.data

/-- Python's `str.lower()` (per-character lowering; the data the services
lower is ASCII).  Defined on the character list so that proofs and witnesses
evaluate inside the kernel. -/
def strLower (s : String) : String :=
  String.mk (s.data.map Char.toLower)

/-- Python's `str.strip()`: drop leading and trailing whitespace. -/
def strTrim (s : String) : String :=
  String.mk (((s.data.dropWhile Char.isWhitespace).reverse.dropWhile
    Char.isWhitespace).reverse)

/-- Dictionary lookup with default, modelling Python's `dict.get(key, default)`
(dictionaries that the code reads are modelled as association lists with
distinct keys). -/
def lookupD {α : Type} (l : List (String × α)) (k : String) (d : α) : α :=
  match l.find? (fun kv => kv.1 == k) with
  | some kv => kv.2
  | none => d

/-- Python's `round(x, 2)` on the non-negative scores this code produces,
modelled on rationals with round-half-up (the code never evaluates `round`
at an exact half-cent, so the banker's-rounding tie rule is never exercised
by any claim). -/
def ratRound2 (q : ℚ) : ℚ :=
  ((round (q * 100) : ℤ) : ℚ) / 100

/-! ## Data model (src/app/models.py) -/

/-- models.py CandidateProfile.  `preferences` is a JSON dict consulted only
through `preferences.get("remote_preferred", False)`, modelled as an
association list of booleans. -/
structure CandidateProfile where
  id : Nat
  version : Nat
  full_name : String
  email : String
  skills : List String
  achievements : List String
  preferences : List (String × Bool)
deriving DecidableEq

/-- models.py TargetingPolicy (the `compensation` JSON dict is never read). -/
structure TargetingPolicy where
  id : Nat
  profile_version : Nat
  role_families : List String
  geos : List String
  seniority : List String
  must_have : List String
  avoid : List String
  suppression_companies : List String
  suppression_domains : List String
  daily_rate_limits : List (String × Nat)
deriving DecidableEq

/-- models.py CVVariant. -/
structure CVVariant where
  id : Nat
  profile_version : Nat
  name : String
  content : String
deriving DecidableEq

/-- models.py JobRecord.  `relevance_score` has column default 0.0 and
`status` has column default "new". -/
structure JobRecord where
  id : Nat
  source : String
  source_job_id : String
  company : String
  title : String
  location : String
  apply_url : String
  description : String
  required_skills : List String
  cover_letter_required : Bool
  fingerprint : String
  relevance_score : ℚ := 0
  status : String := "new"
deriving DecidableEq

/-- models.py DiscoveryRun. -/
structure DiscoveryRun where
  id : Nat
  source_config_id : String
  discovered_count : Nat
  deduped_count : Nat
deriving DecidableEq

/-- The cv_patch JSON payload built by personalization._build_cv_patch. -/
structure CvPatch where
  summary_update : String
  skills_highlighted : List String
  why : String
deriving DecidableEq

/-- models.py ApplicationDraft. -/
structure ApplicationDraft where
  id : Nat
  job_id : Nat
  profile_version : Nat
  cv_variant_id : Nat
  cv_patch : CvPatch
  cv_content : String
  cover_letter : Option String
  status : String := "pending_review"
deriving DecidableEq

/-- One synthetic contact built by personalization._outreach. -/
structure Contact where
  name : String
  title : String
  profile_url : String
  confidence : ℚ
deriving DecidableEq

/-- models.py OutreachDraft. -/
structure OutreachDraft where
  id : Nat
  job_id : Nat
  contacts : List Contact
  connection_note : String
  follow_up_message : String
  email_variant : String
  status : String := "pending_review"
deriving DecidableEq

/-- models.py ReviewBatch. -/
structure ReviewBatch where
  id : Nat
  status : String := "pending_review"
  grouped_by : String := "company_priority"
  item_count : Nat := 0
deriving DecidableEq

/-- models.py ReviewBatchItem. -/
structure ReviewBatchItem where
  id : Nat
  batch_id : Nat
  application_draft_id : Nat
  outreach_draft_id : Nat
  job_id : Nat
  status : String := "pending_review"
  priority_score : ℚ := 0
deriving DecidableEq

/-- models.py ExecutionPlan. -/
structure ExecutionPlan where
  id : Nat
  batch_id : Nat
  status : String := "created"
  approved_count : Nat := 0
  rejected_count : Nat := 0
  deferred_count : Nat := 0
deriving DecidableEq

/-- models.py ExecutionPlanItem. -/
structure ExecutionPlanItem where
  id : Nat
  plan_id : Nat
  batch_item_id : Nat
  action : String
  channel : String
  status : String := "approved"
deriving DecidableEq

/-- models.py ExecutionEvent (append-only; its own primary key is never
consulted by pipeline logic and is omitted). -/
structure ExecutionEvent where
  plan_id : Nat
  plan_item_id : Nat
  job_id : Nat
  event_type : String
  channel : String
  status : String
  attempt : Nat
  error_message : Option String
deriving DecidableEq

/-- models.py FollowUpTask (`due_at` modelled in seconds since an arbitrary
epoch; its own primary key is never consulted and is omitted). -/
structure FollowUpTask where
  job_id : Nat
  outreach_draft_id : Nat
  due_at : Nat
  channel : String
  status : String := "pending"
deriving DecidableEq

/-- models.py AuditLog; the free-form `details` JSON payload is pure
observability (never read back by the pipeline) and is omitted. -/
structure AuditLog where
  entity_type : String
  entity_id : Nat
  action : String
deriving DecidableEq

/-- The persistent store: one list per table, plus a primary-key counter. -/
structure DB where
  profiles : List CandidateProfile := []
  policies : List TargetingPolicy := []
  cv_variants : List CVVariant := []
  jobs : List JobRecord := []
  discovery_runs : List DiscoveryRun := []
  app_drafts : List ApplicationDraft := []
  outreach_drafts : List OutreachDraft := []
  batches : List ReviewBatch := []
  batch_items : List ReviewBatchItem := []
  plans : List ExecutionPlan := []
  plan_items : List ExecutionPlanItem := []
  events : List ExecutionEvent := []
  followups : List FollowUpTask := []
  audit_logs : List AuditLog := []
  next_id : Nat := 1
deriving DecidableEq

/-- `db.get(JobRecord, id)`. -/
def DB.getJob (db : DB) (i : Nat) : Option JobRecord :=
  db.jobs.find? (fun j => j.id == i)

/-- `db.get(ReviewBatchItem, id)`. -/
def DB.getBatchItem (db : DB) (i : Nat) : Option ReviewBatchItem :=
  db.batch_items.find? (fun it => it.id == i)

/-- `db.get(ReviewBatch, id)`. -/
def DB.getBatch (db : DB) (i : Nat) : Option ReviewBatch :=
  db.batches.find? (fun b => b.id == i)

/-- `db.get(ExecutionPlan, id)`. -/
def DB.getPlan (db : DB) (i : Nat) : Option ExecutionPlan :=
  db.plans.find? (fun p => p.id == i)

/-- `db.get(ApplicationDraft, id)`. -/
def DB.getAppDraft (db : DB) (i : Nat) : Option ApplicationDraft :=
  db.app_drafts.find? (fun d => d.id == i)

/-- `db.get(OutreachDraft, id)`. -/
def DB.getOutreachDraft (db : DB) (i : Nat) : Option OutreachDraft :=
  db.outreach_drafts.find? (fun d => d.id == i)

/-- `db.get(ExecutionPlanItem, id)`. -/
def DB.getPlanItem (db : DB) (i : Nat) : Option ExecutionPlanItem :=
  db.plan_items.find? (fun it => it.id == i)

/-- ORM mutation `job.status = st` for the row with the given id. -/
def DB.setJobStatus (db : DB) (i : Nat) (st : String) : DB :=
  { db with jobs := db.jobs.map (fun j => if j.id == i then { j with status := st } else j) }

/-- ORM mutation `item.status = st` on an ExecutionPlanItem row. -/
def DB.setPlanItemStatus (db : DB) (i : Nat) (st : String) : DB :=
  { db with plan_items :=
      db.plan_items.map (fun it => if it.id == i then { it with status := st } else it) }

/-- ORM mutation `plan.status = st` on an ExecutionPlan row. -/
def DB.setPlanStatus (db : DB) (i : Nat) (st : String) : DB :=
  { db with plans := db.plans.map (fun p => if p.id == i then { p with status := st } else p) }

/-- ORM mutation `item.status = st` on a ReviewBatchItem row. -/
def DB.setBatchItemStatus (db : DB) (i : Nat) (st : String) : DB :=
  { db with batch_items :=
      db.batch_items.map (fun it => if it.id == i then { it with status := st } else it) }

/-- ORM mutation `batch.status = st` on a ReviewBatch row. -/
def DB.setBatchStatus (db : DB) (i : Nat) (st : String) : DB :=
  { db with batches := db.batches.map (fun b => if b.id == i then { b with status := st } else b) }

/-- ORM mutation `draft.status = st` on an ApplicationDraft row. -/
def DB.setAppDraftStatus (db : DB) (i : Nat) (st : String) : DB :=
  { db with app_drafts :=
      db.app_drafts.map (fun d => if d.id == i then { d with status := st } else d) }

/-- ORM mutation `draft.status = st` on an OutreachDraft row. -/
def DB.setOutreachDraftStatus (db : DB) (i : Nat) (st : String) : DB :=
  { db with outreach_drafts :=
      db.outreach_drafts.map (fun d => if d.id == i then { d with status := st } else d) }

/-- `db.add(ExecutionEvent(...))`. -/
def DB.addEvent (db : DB) (e : ExecutionEvent) : DB :=
  { db with events := db.events ++ [e] }

/-- audit.log_event: append an AuditLog row (src/app/services/audit.py). -/
def DB.logEvent (db : DB) (entity_type : String) (entity_id : Nat) (action : String) : DB :=
  { db with audit_logs := db.audit_logs ++ [⟨entity_type, entity_id, action⟩] }

/-! ## Scoring service (src/app/services/scoring.py) -/

/-- scoring.should_block_job, lines 5-20: no policy means never blocked;
otherwise block on case-insensitive company suppression match, on a
suppressed-domain substring of the apply URL, or on blank title/company. -/
def shouldBlockJob (job : JobRecord) (policy : Option TargetingPolicy) : Bool :=
  match policy with
  | none => false
  | some p =>
    if p.suppression_companies.any (fun c => strLower c == strLower job.company) then true
    else if p.suppression_domains.any (fun d => strContains (strLower job.apply_url) (strLower d)) then
      true
    else if strTrim job.title == "" || strTrim job.company == "" then true
    else false

/-- The source-key/label table hardcoded in profile_config.get_source_weights. -/
def sourceLabelMap : List (String × String) :=
  [("company_site", "Company career pages (direct)"),
   ("wellfound", "Wellfound"),
   ("yc_jobs", "Y Combinator Work at a Startup"),
   ("builtin", "Built In"),
   ("venture_capital_careers", "Venture Capital Careers"),
   ("devex", "Devex"),
   ("impactpool", "Impactpool"),
   ("world_bank", "World Bank careers"),
   ("imf", "IMF recruitment"),
   ("un", "UN Careers Portal"),
   ("adb", "ADB Consultant Management System"),
   ("linkedin", "LinkedIn"),
   ("job_board", "Built In")]

/-- profile_config.get_source_weights, parameterized by the
`job_source_priority` list of the external JSON configuration file (the file
itself lives outside src/; spec section 6 treats it as a pluggable
Policy Config Provider).  Sources named in the priority list get
`round(((total - rank) / total) * 20.0, 2)`; all others get a flat 3.0. -/
def getSourceWeights (priorities : List String) : List (String × ℚ) :=
  let total : Nat := max priorities.length 1
  sourceLabelMap.map (fun kv =>
    if kv.2 ∈ priorities then
      (kv.1, ratRound2 ((((total : ℚ) - (priorities.indexOf kv.2 : ℚ)) / (total : ℚ)) * 20))
    else (kv.1, 3))

/-- Modelled from the spec: the Policy Config Provider (section 6) — the
external JSON resource read by profile_config.load_profile_config, which is
not part of src/.  Only the three consulted fields are modelled. -/
structure ProfileConfig where
  job_source_priority : List String
  geography_priority_order : List String
  international_priority_order : List String

/-- The value of the `score` accumulator of scoring.relevance_score just
before the final cap-and-round (lines 28-71): additive point system over
skill overlap, role family, remote preference, cover-letter seriousness,
source weight, the geography if/else-if branch, international bonus, and the
three topical bonuses. -/
def relevanceScoreRaw (job : JobRecord) (profile : CandidateProfile)
    (policy : Option TargetingPolicy) (cfg : ProfileConfig) : ℚ :=
  let profile_skills := (profile.skills.map (fun s => strLower (strTrim s))).dedup
  let required := (job.required_skills.map (fun s => strLower (strTrim s))).dedup
  let s1 : ℚ :=
    if required.isEmpty then 20
    else ((profile_skills.inter required).length : ℚ) / ((max required.length 1 : ℕ) : ℚ) * 60
  let s2 : ℚ :=
    match policy with
    | some p =>
      if !p.role_families.isEmpty &&
          p.role_families.any (fun fam => strContains (strLower job.title) (strLower fam)) then 20
      else 0
    | none => 0
  let pref_remote := lookupD profile.preferences "remote_preferred" false
  let s3 : ℚ := if pref_remote && strContains (strLower job.location) "remote" then 10 else 0
  let s4 : ℚ := if job.cover_letter_required then 2 else 0
  let source_bonus : ℚ := lookupD (getSourceWeights cfg.job_source_priority) job.source 0
  let loc := strLower job.location
  let s5 : ℚ :=
    if (cfg.geography_priority_order.filter (fun c => c != "International")).any
        (fun city => strContains loc (strLower city)) then 12
    else if cfg.geography_priority_order.contains "international" &&
        !(["mumbai", "gurugram", "bangalore"].any (fun c => strContains loc c)) then 6
    else 0
  let s6 : ℚ :=
    if cfg.international_priority_order.any (fun country => strContains loc (strLower country))
    then 8 else 0
  let title := strLower job.title
  let desc := strLower job.description
  let s7 : ℚ :=
    if strContains title "venture" || strContains title "vc" ||
        strContains desc "venture capital" then 15 else 0
  let s8 : ℚ :=
    if strContains title "econom" || strContains title "policy" ||
        strContains title "strategy" then 10 else 0
  let s9 : ℚ :=
    if strContains title "ai" || strContains desc "llm" || strContains desc "automation"
    then 8 else 0
  s1 + s2 + s3 + s4 + source_bonus + s5 + s6 + s7 + s8 + s9

/-- scoring.relevance_score, lines 23-73: zero without a profile; otherwise
the additive score accumulator, capped at 100 and rounded to 2 decimals. -/
def relevanceScore (job : JobRecord) (profile : Option CandidateProfile)
    (policy : Option TargetingPolicy) (cfg : ProfileConfig) : ℚ :=
  match profile with
  | none => 0
  | some p => ratRound2 (min (relevanceScoreRaw job p policy cfg) 100)

/-! ## URL parsing (urllib.parse.urlparse, as consumed by the services)

The services consult only `parsed.netloc` and `parsed.path` of absolute
http(s) URLs.  Following CPython's urlsplit: an initial `scheme:` is split
off when the part before the first colon is a nonempty run of scheme
characters starting with a letter; a netloc follows a leading `//` and runs
to the next `/`, `?` or `#`; the fragment starts at the first `#` and the
query at the first `?` of what remains; the path is what is left. -/

/-- Characters CPython allows in a URL scheme. -/
def isSchemeChar (c : Char) : Bool :=
  c.isAlpha || c.isDigit || c == '+' || c == '-' || c == '.'

/-- Split off a leading `scheme:` when present, returning the rest. -/
def dropSchemeChars (l : List Char) : List Char :=
  let pre := l.takeWhile (fun c => c != ':')
  match pre with
  | [] => l
  | c0 :: _ =>
    if pre.length < l.length && c0.isAlpha && pre.all isSchemeChar then
      l.drop (pre.length + 1)
    else l

/-- Stop characters terminating a netloc. -/
def isNetlocStop (c : Char) : Bool :=
  c == '/' || c == '?' || c == '#'

/-- After the scheme: split `//netloc` from the remainder. -/
def splitNetlocChars (l : List Char) : List Char × List Char :=
  match l with
  | '/' :: '/' :: rest =>
    (rest.takeWhile (fun c => !isNetlocStop c), rest.dropWhile (fun c => !isNetlocStop c))
  | _ => ([], l)

/-- The (netloc, path) computation on the underlying character list. -/
def urlNetlocPathChars (l : List Char) : List Char × List Char :=
  let rest := dropSchemeChars l
  let np := splitNetlocChars rest
  let noFragment := np.2.takeWhile (fun c => c != '#')
  (np.1, noFragment.takeWhile (fun c => c != '?'))

/-- `urlparse(url)` restricted to the two consulted components
(netloc, path). -/
def urlNetlocPath (url : String) : String × String :=
  let np := urlNetlocPathChars url.data
  (String.mk np.1, String.mk np.2)

/-! ## Discovery service (src/app/services/discovery.py) -/

/-- discovery.SourceJob (raw job from a source provider). -/
structure SourceJob where
  source : String
  source_job_id : String
  company : String
  title : String
  location : String
  apply_url : String
  description : String
  required_skills : List String
  cover_letter_required : Bool
deriving DecidableEq

/-- discovery._fingerprint, lines 26-29: lowercase-trimmed company, title and
location plus the lowercase netloc+path of the apply URL (query string and
fragment ignored), joined with a fixed delimiter.  The code then takes the
sha256 hexdigest of this string; since the pipeline consults fingerprints
only through equality (the unique index and the dedup lookup) and sha256 is a
fixed deterministic function of its input, the digest step is modelled by the
normalized preimage itself (sha256 collisions are not modelled). -/
def fingerprintOf (company title location apply_url : String) : String :=
  let parsed := urlNetlocPath apply_url
  strLower (strTrim company) ++ "|" ++ strLower (strTrim title) ++ "|" ++
    strLower (strTrim location) ++ "|" ++ strLower parsed.1 ++ strLower parsed.2

/-- discovery._mock_source_jobs: the deterministic six-job fixture set
(the third entry duplicates the first up to a tracking query parameter). -/
def mockSourceJobs (source_config_id : String) : List SourceJob :=
  let seed := strLower (strTrim source_config_id)
  [{ source := "venture_capital_careers", source_job_id := seed ++ "-vc-1",
     company := "NorthBridge Ventures", title := "Investment Analyst (Economics + AI)",
     location := "London, UK", apply_url := "https://jobs.northbridge.vc/investment-analyst",
     description := "Evaluate AI-native businesses, macro trends, incentives, and market dynamics for portfolio investment decisions.",
     required_skills := ["economics", "research", "market analysis", "excel"],
     cover_letter_required := false },
   { source := "company_site", source_job_id := seed ++ "-co-2",
     company := "Aurum Strategy Partners", title := "Economic Consulting Analyst",
     location := "Mumbai, India", apply_url := "https://careers.aurumstrategy.com/econ-analyst",
     description := "Support consulting engagements across public policy, incentives design, and market strategy.",
     required_skills := ["econometrics", "stata", "excel", "policy analysis"],
     cover_letter_required := true },
   { source := "wellfound", source_job_id := seed ++ "-wf-3",
     company := "NorthBridge Ventures", title := "Investment Analyst (Economics + AI)",
     location := "London, UK",
     apply_url := "https://jobs.northbridge.vc/investment-analyst?src=wellfound",
     description := "Evaluate AI-native businesses, macro trends, incentives, and market dynamics for portfolio investment decisions.",
     required_skills := ["economics", "research", "market analysis", "excel"],
     cover_letter_required := false },
   { source := "imf", source_job_id := seed ++ "-imf-4",
     company := "International Monetary Fund", title := "Research Officer - Emerging Markets",
     location := "Washington, US", apply_url := "https://careers.imf.org/research-officer",
     description := "Economic policy analysis, macro monitoring, and writing for institutional audiences.",
     required_skills := ["economics", "research", "policy analysis", "stata"],
     cover_letter_required := true },
   { source := "yc_jobs", source_job_id := seed ++ "-yc-5",
     company := "SignalStack AI", title := "Strategy Analyst (AI Markets)",
     location := "Remote, International", apply_url := "https://jobs.signalstack.ai/strategy-analyst",
     description := "Translate AI product and market data into strategic recommendations for growth.",
     required_skills := ["economics", "strategy", "excel", "research"],
     cover_letter_required := false },
   { source := "devex", source_job_id := seed ++ "-dx-6",
     company := "Global Development Advisory", title := "Policy and Economic Analyst",
     location := "Gurugram, India", apply_url := "https://jobs.gda.example/policy-analyst",
     description := "Policy analytics for development finance clients; incentives and institutional analysis.",
     required_skills := ["policy analysis", "economics", "excel", "writing"],
     cover_letter_required := true }]

/-- The latest-version candidate profile
(`order_by(CandidateProfile.version.desc()).limit(1)`). -/
def activeProfile (db : DB) : Option CandidateProfile :=
  db.profiles.foldl (fun acc p =>
    match acc with
    | none => some p
    | some q => if q.version < p.version then some p else acc) none

/-- The highest-id targeting policy attached to the given profile version
(`where(profile_version == v).order_by(id.desc()).limit(1)`). -/
def activePolicy (db : DB) (version : Nat) : Option TargetingPolicy :=
  (db.policies.filter (fun pol => pol.profile_version == version)).foldl
    (fun acc pol =>
      match acc with
      | none => some pol
      | some q => if q.id < pol.id then some pol else acc) none

/-- compliance._active_policy: the policy of the latest profile, if any. -/
def dbActivePolicy (db : DB) : Option TargetingPolicy :=
  match activeProfile db with
  | none => none
  | some profile => activePolicy db profile.version

/-- The JobRecord constructed from a raw source job in run_discovery
(relevance_score and status keep their column defaults 0.0 / "new"). -/
def mkJobRecord (i : Nat) (raw : SourceJob) (fp : String) : JobRecord :=
  { id := i, source := raw.source, source_job_id := raw.source_job_id,
    company := raw.company, title := raw.title, location := raw.location,
    apply_url := raw.apply_url, description := raw.description,
    required_skills := raw.required_skills,
    cover_letter_required := raw.cover_letter_required, fingerprint := fp }

/-- One iteration of the run_discovery loop (discovery.py lines 127-162):
fingerprint, dedup lookup, block-or-score, insert, audit.  The state is the
store plus the running deduped counter. -/
def discoverStep (profile : Option CandidateProfile) (policy : Option TargetingPolicy)
    (cfg : ProfileConfig) (st : DB × Nat) (raw : SourceJob) : DB × Nat :=
  let (db, deduped) := st
  let fp := fingerprintOf raw.company raw.title raw.location raw.apply_url
  if (db.jobs.find? (fun j => j.fingerprint == fp)).isSome then (db, deduped + 1)
  else
    let job0 := mkJobRecord db.next_id raw fp
    let job :=
      if shouldBlockJob job0 policy then { job0 with status := "blocked" }
      else { job0 with relevance_score := relevanceScore job0 profile policy cfg,
                       status := "new" }
    let db := { db with jobs := db.jobs ++ [job], next_id := db.next_id + 1 }
    (db.logEvent "job_record" job.id "discovered", deduped)

/-- discovery.run_discovery, lines 106-172, over the mock fixture provider. -/
def runDiscovery (db : DB) (cfg : ProfileConfig) (source_config_id : String) :
    DB × DiscoveryRun :=
  let profile := activeProfile db
  let policy :=
    match profile with
    | none => none
    | some p => activePolicy db p.version
  let run0 : DiscoveryRun :=
    { id := db.next_id, source_config_id := source_config_id,
      discovered_count := 0, deduped_count := 0 }
  let db := { db with discovery_runs := db.discovery_runs ++ [run0], next_id := db.next_id + 1 }
  let source_jobs := mockSourceJobs source_config_id
  let st : DB × Nat := source_jobs.foldl (discoverStep profile policy cfg) (db, 0)
  let run : DiscoveryRun :=
    { run0 with discovered_count := source_jobs.length, deduped_count := st.2 }
  let db1 := st.1
  let db := { db1 with discovery_runs :=
      db1.discovery_runs.map (fun (r : DiscoveryRun) => if r.id == run.id then run else r) }
  (db.logEvent "discovery_run" run.id "completed", run)

/-! ## Generic sorted-query helper

SQLAlchemy `order_by` queries are modelled by an insertion sort with a
boolean "comes-no-later-than" relation; the claims only consult lengths and
membership of the resulting lists. -/

/-- Insert into a sorted list. -/
def insertByLe {α : Type} (le : α → α → Bool) (a : α) : List α → List α
  | [] => [a]
  | b :: bs => if le a b then a :: b :: bs else b :: insertByLe le a bs

/-- Insertion sort by a boolean relation. -/
def sortByLe {α : Type} (le : α → α → Bool) : List α → List α
  | [] => []
  | a :: as => insertByLe le a (sortByLe le as)

/-! ## Drafter (src/app/services/personalization.py) -/

/-- personalization._choose_cv_variant, lines 16-30: among the active
profile's variants in id order, take the first whose name shares the
"backend" or "platform" keyword family with the job title; else the first
variant; error when the profile has no variants. -/
def chooseCvVariant (db : DB) (profile_version : Nat) (job : JobRecord) :
    Except String CVVariant :=
  let variants := sortByLe (fun a b => decide (a.id ≤ b.id))
    (db.cv_variants.filter (fun v => v.profile_version == profile_version))
  match variants with
  | [] => .error "No CV variants found for active profile"
  | v0 :: _ =>
    let title_lower := strLower job.title
    match variants.find? (fun v =>
        (strContains title_lower "backend" && strContains (strLower v.name) "backend") ||
        (strContains title_lower "platform" && strContains (strLower v.name) "platform")) with
    | some v => .ok v
    | none => .ok v0

/-- personalization._build_cv_patch, lines 33-39. -/
def buildCvPatch (job : JobRecord) (profile : CandidateProfile) : CvPatch :=
  let req_lower := job.required_skills.map strLower
  let top_skills := profile.skills.filter (fun skill => req_lower.contains (strLower skill))
  { summary_update := "Emphasize impact for " ++ job.title ++ " at " ++ job.company ++ ".",
    skills_highlighted := top_skills.take 6,
    why := "Matched required skills for " ++ job.title ++
      " and aligned achievements to job description." }

/-- personalization._cover_letter, lines 42-51: only when the job requires
one. -/
def coverLetterFor (job : JobRecord) (profile : CandidateProfile) : Option String :=
  if !job.cover_letter_required then none
  else some ("Dear " ++ job.company ++ " team,\n\nI am excited to apply for the " ++
    job.title ++ " role. My background in " ++
    String.intercalate ", " (profile.skills.take 4) ++
    " aligns with your needs.\n\nI would value the opportunity to discuss how I can contribute quickly.\n\nBest regards,\n" ++
    profile.full_name)

/-- personalization._outreach, lines 54-90: two synthetic contacts and three
templated messages. -/
def buildOutreach (i : Nat) (job : JobRecord) (profile : CandidateProfile) : OutreachDraft :=
  let company_url := "https://www.linkedin.com/company/" ++ String.mk ((strLower job.company).data.map (fun c => if c == ' ' then '-' else c))
  { id := i, job_id := job.id,
    contacts :=
      [{ name := job.company ++ " Hiring Manager", title := "Hiring Manager, " ++ job.title,
         profile_url := company_url, confidence := 74 / 100 },
       { name := job.company ++ " Recruiter", title := "Technical Recruiter",
         profile_url := company_url, confidence := 68 / 100 }],
    connection_note := "Hi, I just applied for " ++ job.title ++ " at " ++ job.company ++
      ". I’d love to connect and share a concise overview of my relevant experience.",
    follow_up_message := "Thanks for connecting. I’m highly interested in " ++ job.title ++
      ". Happy to send a short portfolio of recent impact aligned to this role.",
    email_variant := "Subject: Interest in " ++ job.title ++ " at " ++ job.company ++
      "\n\nHi team,\n\nI’ve applied for " ++ job.title ++
      " and wanted to share a brief intro. I bring strong experience in " ++
      String.intercalate ", " (profile.skills.take 4) ++
      " and would welcome a conversation.\n\nRegards,\n" ++ profile.full_name }

/-- One iteration of the generate_drafts_and_batch loop (lines 112-148):
variant choice, application draft, outreach draft, batch item, job status
transition to pending_review, audit. -/
def draftJob (profile : CandidateProfile) (batch_id : Nat) (db : DB) (job : JobRecord) :
    Except String DB :=
  match chooseCvVariant db profile.version job with
  | .error e => .error e
  | .ok cv_variant =>
    let app_draft : ApplicationDraft :=
      { id := db.next_id, job_id := job.id, profile_version := profile.version,
        cv_variant_id := cv_variant.id, cv_patch := buildCvPatch job profile,
        cv_content := cv_variant.content, cover_letter := coverLetterFor job profile }
    let db := { db with app_drafts := db.app_drafts ++ [app_draft], next_id := db.next_id + 1 }
    let outreach := buildOutreach db.next_id job profile
    let db := { db with outreach_drafts := db.outreach_drafts ++ [outreach],
                        next_id := db.next_id + 1 }
    let item : ReviewBatchItem :=
      { id := db.next_id, batch_id := batch_id, application_draft_id := app_draft.id,
        outreach_draft_id := outreach.id, job_id := job.id,
        priority_score := job.relevance_score }
    let db := { db with batch_items := db.batch_items ++ [item], next_id := db.next_id + 1 }
    let db := db.setJobStatus job.id "pending_review"
    .ok (db.logEvent "job_record" job.id "drafted_for_review")

/-- personalization.generate_drafts_and_batch, lines 93-158: draft every job
in state "new" (ordered by relevance score descending, id ascending) into one
fresh ReviewBatch; no profile or no eligible jobs yields no batch; a missing
CV variant aborts the whole invocation (the raised ValueError is modelled as
an error result with no partial state committed, matching the
transaction-per-call boundary of spec section 7). -/
def generateDraftsAndBatch (db : DB) : Except String (DB × Option ReviewBatch) :=
  match activeProfile db with
  | none => .ok (db, none)
  | some profile =>
    let jobs := sortByLe
      (fun a b => decide (b.relevance_score < a.relevance_score) ||
        (a.relevance_score == b.relevance_score && decide (a.id ≤ b.id)))
      (db.jobs.filter (fun j => j.status == "new"))
    match jobs with
    | [] => .ok (db, none)
    | _ :: _ =>
      let batch0 : ReviewBatch := { id := db.next_id }
      let db := { db with batches := db.batches ++ [batch0], next_id := db.next_id + 1 }
      let dbE := jobs.foldl (fun acc job =>
        match acc with
        | .error e => .error e
        | .ok db => draftJob profile batch0.id db job) (Except.ok db)
      match dbE with
      | .error e => .error e
      | .ok db =>
        let batch := { batch0 with item_count := jobs.length }
        let db := { db with batches :=
                      db.batches.map (fun (b : ReviewBatch) => if b.id == batch.id then batch else b) }
        .ok (db.logEvent "review_batch" batch.id "created", some batch)

/-! ## Review decision engine (src/app/services/review.py) -/

/-- The free-form edit payload of schemas.ReviewDecisionItem, modelled as the
closed set of fields review._apply_edits actually reads. -/
structure DecisionEdits where
  cover_letter : Option String := none
  cv_patch : Option CvPatch := none
  connection_note : Option String := none
  email_variant : Option String := none
deriving DecidableEq

/-- schemas.ReviewDecisionItem. -/
structure ReviewDecisionItem where
  batch_item_id : Nat
  decision : String
  edits : DecisionEdits := {}
deriving DecidableEq

/-- review._apply_edits, lines 16-28: apply each present edit verbatim to the
item's drafts (silently skipped when the draft row is missing, which the
id-targeted map update models). -/
def applyEdits (db : DB) (item : ReviewBatchItem) (decision : ReviewDecisionItem) : DB :=
  let db := match decision.edits.cover_letter with
    | some s => { db with app_drafts := db.app_drafts.map (fun d =>
        if d.id == item.application_draft_id then { d with cover_letter := some s } else d) }
    | none => db
  let db := match decision.edits.cv_patch with
    | some p => { db with app_drafts := db.app_drafts.map (fun d =>
        if d.id == item.application_draft_id then { d with cv_patch := p } else d) }
    | none => db
  let db := match decision.edits.connection_note with
    | some s => { db with outreach_drafts := db.outreach_drafts.map (fun d =>
        if d.id == item.outreach_draft_id then { d with connection_note := s } else d) }
    | none => db
  match decision.edits.email_variant with
  | some s => { db with outreach_drafts := db.outreach_drafts.map (fun d =>
      if d.id == item.outreach_draft_id then { d with email_variant := s } else d) }
  | none => db

/-- The decision entry matching a batch item id, if any
(`{entry.batch_item_id: entry for entry in decisions}`: later entries
overwrite earlier ones, hence the reversed search). -/
def decisionFor (decisions : List ReviewDecisionItem) (item_id : Nat) :
    Option ReviewDecisionItem :=
  decisions.reverse.find? (fun d => d.batch_item_id == item_id)

/-- One iteration of the apply_batch_decisions loop (lines 47-99): a missing
decision defaults the item to deferred; "approve" (after trim/lowercase)
approves item and drafts and creates the two plan items; "reject" rejects
item and drafts; anything else defers item and drafts. -/
def decideStep (decisions : List ReviewDecisionItem) (st : DB × ExecutionPlan)
    (item : ReviewBatchItem) : DB × ExecutionPlan :=
  let (db, plan) := st
  match decisionFor decisions item.id with
  | none =>
    (db.setBatchItemStatus item.id "deferred",
     { plan with deferred_count := plan.deferred_count + 1 })
  | some decision =>
    let normalized := strLower (strTrim decision.decision)
    let db := applyEdits db item decision
    if normalized == "approve" then
      let db := db.setBatchItemStatus item.id "approved"
      let db := db.setAppDraftStatus item.application_draft_id "approved"
      let db := db.setOutreachDraftStatus item.outreach_draft_id "approved"
      let app_item : ExecutionPlanItem :=
        { id := db.next_id, plan_id := plan.id, batch_item_id := item.id,
          action := "submit_application", channel := "job_board" }
      let db := { db with plan_items := db.plan_items ++ [app_item], next_id := db.next_id + 1 }
      let out_item : ExecutionPlanItem :=
        { id := db.next_id, plan_id := plan.id, batch_item_id := item.id,
          action := "send_outreach", channel := "linkedin_email" }
      let db := { db with plan_items := db.plan_items ++ [out_item], next_id := db.next_id + 1 }
      (db, { plan with approved_count := plan.approved_count + 1 })
    else if normalized == "reject" then
      let db := db.setBatchItemStatus item.id "rejected"
      let db := db.setAppDraftStatus item.application_draft_id "rejected"
      let db := db.setOutreachDraftStatus item.outreach_draft_id "rejected"
      (db, { plan with rejected_count := plan.rejected_count + 1 })
    else
      let db := db.setBatchItemStatus item.id "deferred"
      let db := db.setAppDraftStatus item.application_draft_id "deferred"
      let db := db.setOutreachDraftStatus item.outreach_draft_id "deferred"
      (db, { plan with deferred_count := plan.deferred_count + 1 })

/-- review.apply_batch_decisions, lines 31-116: precondition that the batch
is open, one ExecutionPlan per call, per-item fold, unconditional transition
of the batch to "decided". -/
def applyBatchDecisions (db : DB) (batch_id : Nat) (decisions : List ReviewDecisionItem) :
    Except String (DB × ExecutionPlan) :=
  match db.getBatch batch_id with
  | none => .error "Batch not found"
  | some batch =>
    if batch.status != "pending_review" then .error "Batch is not open for decisions"
    else
      let items := db.batch_items.filter (fun it => it.batch_id == batch_id)
      let plan0 : ExecutionPlan := { id := db.next_id, batch_id := batch_id }
      let db := { db with plans := db.plans ++ [plan0], next_id := db.next_id + 1 }
      let st : DB × ExecutionPlan := items.foldl (decideStep decisions) (db, plan0)
      let db2 := st.1
      let plan := st.2
      let db3 := { db2 with plans :=
                     db2.plans.map (fun (p : ExecutionPlan) => if p.id == plan.id then plan else p) }
      let db4 := db3.setBatchStatus batch_id "decided"
      .ok (db4.logEvent "review_batch" batch_id "decision_applied", plan)

/-! ## Compliance gate (src/app/services/compliance.py) -/

/-- The default daily rate limits (models.py column default and the
compliance fallbacks). -/
def defaultLimits : List (String × Nat) := [("application", 40), ("outreach", 40)]

/-- Successful-event count of a given event type over the whole event log
(compliance.py lines 57-60: the query has no time window). -/
def successCount (db : DB) (key : String) : Nat :=
  ((db.events.filter (fun e => e.status == "success")).filter
    (fun e => e.event_type == key)).length

/-- The rate-limit category of an action (compliance.py line 61). -/
def limitKeyOf (action : String) : String :=
  if action == "submit_application" then "application" else "outreach"

/-- Check 5 of the compliance gate (application draft completeness) plus the
final pass-through (compliance.py lines 73-80). -/
def complianceAppCheck (db : DB) (item : ReviewBatchItem) (action : String) :
    Bool × Option String :=
  if action == "submit_application" then
    match db.getAppDraft item.application_draft_id with
    | none => (false, some "Application draft missing")
    | some app_draft =>
      if strTrim app_draft.cv_content == "" then (false, some "Missing CV content")
      else (true, none)
  else (true, none)

/-- Checks 3-5 of the compliance gate (rate limit, outreach message
uniqueness, application draft completeness), shared by both policy branches
of run_compliance_checks; the control flow of sequential early returns is
rendered as nested conditionals. -/
def complianceTail (db : DB) (item : ReviewBatchItem) (action : String)
    (limits : List (String × Nat)) : Bool × Option String :=
  let limit_key := limitKeyOf action
  if lookupD limits limit_key 40 ≤ successCount db limit_key then
    (false, some ("Rate limit exceeded for " ++ limit_key))
  else if action == "send_outreach" then
    match db.getOutreachDraft item.outreach_draft_id with
    | some outreach =>
      let identical := (db.outreach_drafts.filter
        (fun d => d.connection_note == outreach.connection_note)).length
      if 10 < identical then (false, some "Message uniqueness guard triggered")
      else complianceAppCheck db item action
    | none => complianceAppCheck db item action
  else complianceAppCheck db item action

/-- compliance.run_compliance_checks, lines 30-80: resolve item and job,
then (under the active policy, when present) company suppression, domain
suppression against the apply URL's netloc, and the shared tail checks.
The `channel` argument is accepted and ignored, as in the code. -/
def runComplianceChecks (db : DB) (item_id : Nat) (action : String) (_channel : String) :
    Bool × Option String :=
  let policy := dbActivePolicy db
  match db.getBatchItem item_id with
  | none => (false, some "Review item not found")
  | some item =>
    match db.getJob item.job_id with
    | none => (false, some "Job not found")
    | some job =>
      match policy with
      | some p =>
        if p.suppression_companies.any (fun c => strLower c == strLower job.company) then
          (false, some "Company is suppressed")
        else
          let domain := strLower (urlNetlocPath job.apply_url).1
          if p.suppression_domains.any (fun d => strContains domain (strLower d)) then
            (false, some "Domain is suppressed")
          else
            complianceTail db item action
              (if p.daily_rate_limits.isEmpty then defaultLimits else p.daily_rate_limits)
      | none => complianceTail db item action defaultLimits

/-! ## Execution engine (src/app/services/execution.py) -/

/-- execution.MAX_ATTEMPTS. -/
def MAX_ATTEMPTS : Nat := 3

/-- execution._attempt_action, lines 21-26: the deterministic connector
mock — a company containing "transient" fails attempts before the last one;
a job whose status contains "blocked" always fails; otherwise success. -/
def attemptAction (job : JobRecord) (attempt : Nat) : Bool × Option String :=
  if strContains (strLower job.company) "transient" && decide (attempt < MAX_ATTEMPTS) then
    (false, some "Transient connector timeout")
  else if strContains job.status "blocked" then (false, some "Job blocked")
  else (true, none)

/-- `"application" if item.action == "submit_application" else "outreach"`. -/
def eventTypeOf (action : String) : String :=
  if action == "submit_application" then "application" else "outreach"

/-- schemas.ExecutionItemResult. -/
structure ExecutionItemResult where
  plan_item_id : Nat
  action : String
  channel : String
  status : String
  attempts : Nat
  error_message : Option String := none
deriving DecidableEq

/-- The retry loop of execute_plan (lines 74-94), walked over the list of
attempt numbers `[1, 2, 3]`: each failed attempt records a "retrying" event
and remembers the failure; the loop stops at the first success.  Returns the
store, the success flag, the final value of the `attempts` variable, and the
last failure message. -/
def attemptSeq (plan_id : Nat) (item : ExecutionPlanItem) (job : JobRecord) :
    DB → Option String → Nat → List Nat → DB × Bool × Nat × Option String
  | db, lastErr, prev, [] => (db, false, prev, lastErr)
  | db, lastErr, _prev, a :: rest =>
    let r := attemptAction job a
    if r.1 then (db, true, a, lastErr)
    else
      let db := db.addEvent
        { plan_id := plan_id, plan_item_id := item.id, job_id := job.id,
          event_type := eventTypeOf item.action, channel := item.channel,
          status := "retrying", attempt := a, error_message := r.2 }
      attemptSeq plan_id item job db r.2 a rest

/-- One iteration of the execute_plan loop (lines 39-147): silently skip an
item whose batch item or job is missing; run the compliance gate and record
a blocked event on refusal; otherwise run the bounded retry loop, record the
outcome event, and on success apply the job-status side effect
(submit_application sets "applied"; send_outreach sets "outreach_sent" only
when the job was already "applied"). -/
def executeItem (plan_id : Nat) (st : DB × List ExecutionItemResult)
    (item : ExecutionPlanItem) : DB × List ExecutionItemResult :=
  let (db, results) := st
  match db.getBatchItem item.batch_item_id with
  | none => (db, results)
  | some batch_item =>
    match db.getJob batch_item.job_id with
    | none => (db, results)
    | some job =>
      let comp := runComplianceChecks db batch_item.id item.action item.channel
      if !comp.1 then
        let db := db.setPlanItemStatus item.id "blocked"
        let db := db.addEvent
          { plan_id := plan_id, plan_item_id := item.id, job_id := job.id,
            event_type := eventTypeOf item.action, channel := item.channel,
            status := "blocked", attempt := 1, error_message := comp.2 }
        let res : ExecutionItemResult :=
          { plan_item_id := item.id, action := item.action, channel := item.channel,
            status := "blocked", attempts := 1, error_message := comp.2 }
        (db, results ++ [res])
      else
        let r := attemptSeq plan_id item job db none 0 [1, 2, 3]
        let db := r.1
        let attempts := r.2.2.1
        if r.2.1 then
          let db := db.setPlanItemStatus item.id "success"
          let db := db.addEvent
            { plan_id := plan_id, plan_item_id := item.id, job_id := job.id,
              event_type := eventTypeOf item.action, channel := item.channel,
              status := "success", attempt := attempts, error_message := none }
          let db :=
            if item.action == "submit_application" then db.setJobStatus job.id "applied"
            else if job.status == "applied" then db.setJobStatus job.id "outreach_sent"
            else db
          let res : ExecutionItemResult :=
            { plan_item_id := item.id, action := item.action, channel := item.channel,
              status := "success", attempts := attempts }
          (db, results ++ [res])
        else
          let db := db.setPlanItemStatus item.id "failed"
          let db := db.addEvent
            { plan_id := plan_id, plan_item_id := item.id, job_id := job.id,
              event_type := eventTypeOf item.action, channel := item.channel,
              status := "failed", attempt := attempts, error_message := r.2.2.2 }
          let res : ExecutionItemResult :=
            { plan_item_id := item.id, action := item.action, channel := item.channel,
              status := "failed", attempts := attempts, error_message := r.2.2.2 }
          (db, results ++ [res])

/-- execution.execute_plan, lines 29-157: fail only when the plan id is
unknown; process the plan's items in id order; unconditionally mark the plan
"completed" afterwards.  There is no completion guard: the plan's prior
status is never consulted. -/
def executePlan (db : DB) (plan_id : Nat) :
    Except String (DB × List ExecutionItemResult) :=
  match db.getPlan plan_id with
  | none => .error "Execution plan not found"
  | some plan =>
    let items := sortByLe (fun a b => decide (a.id ≤ b.id))
      (db.plan_items.filter (fun it => it.plan_id == plan_id))
    let st : DB × List ExecutionItemResult := items.foldl (executeItem plan.id) (db, [])
    let db := st.1.setPlanStatus plan.id "completed"
    .ok (db.logEvent "execution_plan" plan.id "executed", st.2)

/-- execution.approve_and_execute_batch_item, lines 160-214: the only entry
point with an idempotency guard (any prior successful event for the job
rejects the call); approves the item and drafts, creates a fresh
single-item plan with its two actions, and runs execute_plan on it. -/
def approveAndExecuteBatchItem (db : DB) (batch_item_id : Nat) :
    Except String (DB × List ExecutionItemResult) :=
  match db.getBatchItem batch_item_id with
  | none => .error "Batch item not found"
  | some item =>
    match db.getAppDraft item.application_draft_id,
        db.getOutreachDraft item.outreach_draft_id with
    | some _, some _ =>
      if (db.events.find? (fun e => e.job_id == item.job_id && e.status == "success")).isSome
      then .error "Job already executed successfully"
      else
        let db := db.setBatchItemStatus item.id "approved"
        let db := db.setAppDraftStatus item.application_draft_id "approved"
        let db := db.setOutreachDraftStatus item.outreach_draft_id "approved"
        let plan : ExecutionPlan :=
          { id := db.next_id, batch_id := item.batch_id, approved_count := 1 }
        let db := { db with plans := db.plans ++ [plan], next_id := db.next_id + 1 }
        let app_item : ExecutionPlanItem :=
          { id := db.next_id, plan_id := plan.id, batch_item_id := item.id,
            action := "submit_application", channel := "job_board" }
        let db := { db with plan_items := db.plan_items ++ [app_item],
                            next_id := db.next_id + 1 }
        let out_item : ExecutionPlanItem :=
          { id := db.next_id, plan_id := plan.id, batch_item_id := item.id,
            action := "send_outreach", channel := "linkedin_email" }
        let db := { db with plan_items := db.plan_items ++ [out_item],
                            next_id := db.next_id + 1 }
        executePlan db plan.id
    | _, _ => .error "Drafts not found for batch item"

/-! ## Follow-up scheduler (src/app/services/followups.py) -/

/-- timedelta(days=1, hours=7) in seconds. -/
def followUpOffset : Nat := 111600

/-- followups.schedule_followups_for_plan, lines 15-55: for every successful
outreach event of the plan, resolve plan item, batch item and outreach
draft (skipping silently when missing), skip when a pending task for the
same (job, outreach draft) pair exists, else create the task.  `now` stands
for datetime.utcnow() in seconds. -/
def scheduleFollowupsForPlan (db : DB) (now : Nat) (plan_id : Nat) : DB × Nat :=
  let outreach_events := db.events.filter (fun e =>
    e.plan_id == plan_id && e.event_type == "outreach" && e.status == "success")
  outreach_events.foldl (fun (st : DB × Nat) event =>
    let (db, created) := st
    let due_at := now + followUpOffset
    match db.getPlanItem event.plan_item_id with
    | none => (db, created)
    | some plan_item =>
      match db.getBatchItem plan_item.batch_item_id with
      | none => (db, created)
      | some batch_item =>
        match db.getOutreachDraft batch_item.outreach_draft_id with
        | none => (db, created)
        | some outreach =>
          if (db.followups.find? (fun t => t.job_id == event.job_id &&
              t.outreach_draft_id == outreach.id && t.status == "pending")).isSome then
            (db, created)
          else
            ({ db with followups := db.followups ++
                [{ job_id := event.job_id, outreach_draft_id := outreach.id,
                   due_at := due_at, channel := event.channel }] },
             created + 1)) (db, 0)

/-! ## Claim-support definitions -/

/-- The blocking predicate transcribed literally from the spec sentence
"returns true if the job's company is in the policy's suppression list
(case-insensitive exact match), or the apply-URL contains a suppressed
domain substring, or the job's title or company is empty/whitespace;
otherwise it returns false", read (as the claim does) as applying to every
job and every policy, including the absent-policy case in which the two
policy-dependent disjuncts are vacuously false.  Used only to compare the
claim's wording against the implementation. -/
def specShouldBlock (job : JobRecord) (policy : Option TargetingPolicy) : Bool :=
  (match policy with
   | some p =>
     p.suppression_companies.any (fun c => strLower c == strLower job.company) ||
     p.suppression_domains.any (fun d => strContains (strLower job.apply_url) (strLower d))
   | none => false) ||
  strTrim job.title == "" || strTrim job.company == ""

/-- The limits dict selected by compliance.run_compliance_checks lines 53-55
(`policy.daily_rate_limits or default` when a policy is active, else the
default). -/
def activeLimits (db : DB) : List (String × Nat) :=
  match dbActivePolicy db with
  | some p => if p.daily_rate_limits.isEmpty then defaultLimits else p.daily_rate_limits
  | none => defaultLimits

/-- "No injected failures": no job's company triggers the transient-failure
connector mock and no job's status makes the connector fail. -/
def goodJobs (db : DB) : Prop :=
  ∀ j ∈ db.jobs, strContains (strLower j.company) "transient" = false ∧
    strContains j.status "blocked" = false

/-- A plan item whose referenced batch item and job both exist. -/
def resolvableItem (db : DB) (item : ExecutionPlanItem) : Prop :=
  ∃ bi, db.getBatchItem item.batch_item_id = some bi ∧ (db.getJob bi.job_id).isSome = true

/-- A job-row transformer that only rewrites statuses (to one of the two
success side-effect statuses), as execute_plan does. -/
def jobLike (f : JobRecord → JobRecord) : Prop :=
  ∀ j, (f j).id = j.id ∧ (f j).company = j.company ∧
    ((f j).status = j.status ∨ (f j).status = "applied" ∨ (f j).status = "outreach_sent")

/-- A plan-item transformer that only rewrites statuses. -/
def planItemLike (g : ExecutionPlanItem → ExecutionPlanItem) : Prop :=
  ∀ it, (g it).id = it.id ∧ (g it).plan_id = it.plan_id ∧
    (g it).batch_item_id = it.batch_item_id

/-- How one execute_plan pass may reshape the store: batch items untouched,
jobs and plan items status-rewritten in place, plans status-rewritten in
place. -/
def DBShaped (db db' : DB) : Prop :=
  db'.batch_items = db.batch_items ∧
  (∃ f, jobLike f ∧ db'.jobs = db.jobs.map f) ∧
  (∃ g, planItemLike g ∧ db'.plan_items = db.plan_items.map g) ∧
  (∃ h, (∀ p : ExecutionPlan, (h p).id = p.id) ∧ db'.plans = db.plans.map h)

/-- The status a batch item ends up with under apply_batch_decisions. -/
def decisionOutcome (decisions : List ReviewDecisionItem) (item_id : Nat) : String :=
  match decisionFor decisions item_id with
  | none => "deferred"
  | some d =>
    let n := strLower (strTrim d.decision)
    if n == "approve" then "approved" else if n == "reject" then "rejected" else "deferred"

/-- Every job stored as "blocked" is still stored as "blocked" (same id). -/
def blockedPreserved (db db' : DB) : Prop :=
  ∀ i, (∃ j ∈ db.jobs, j.id = i ∧ j.status = "blocked") →
    ∃ j' ∈ db'.jobs, j'.id = i ∧ j'.status = "blocked"

/-! ### Concrete scenario used by the witnesses -/

/-- A store with nothing in it (all tables empty). -/
def emptyDb : DB := {}

/-- A job with a blank title, for exercising the blank-title disjunct. -/
def blankTitleJob : JobRecord :=
  { id := 1, source := "company_site", source_job_id := "x-1", company := "Acme Corp",
    title := "   ", location := "Remote", apply_url := "https://jobs.acme.example/role",
    description := "d", required_skills := [], cover_letter_required := false,
    fingerprint := "fp-blank" }

/-- Demo candidate profile. -/
def demoProfile : CandidateProfile :=
  { id := 1, version := 1, full_name := "Alex Doe", email := "alex@example.com",
    skills := ["economics", "excel"], achievements := [],
    preferences := [("remote_preferred", true)] }

/-- Demo targeting policy. -/
def demoPolicy : TargetingPolicy :=
  { id := 1, profile_version := 1, role_families := ["analyst"], geos := [],
    seniority := [], must_have := [], avoid := [], suppression_companies := ["BadCo"],
    suppression_domains := ["spam.example"],
    daily_rate_limits := [("application", 40), ("outreach", 40)] }

/-- Demo CV variant. -/
def demoVariant : CVVariant :=
  { id := 2, profile_version := 1, name := "General", content := "CV content" }

/-- Demo job, already drafted and pending review. -/
def demoJob : JobRecord :=
  { id := 3, source := "company_site", source_job_id := "cfg-co-2", company := "Acme",
    title := "Economic Analyst", location := "Remote",
    apply_url := "https://jobs.acme.example/analyst", description := "desc",
    required_skills := ["economics"], cover_letter_required := false,
    fingerprint := "fp-acme", relevance_score := 50, status := "pending_review" }

/-- Demo application draft. -/
def demoAppDraft : ApplicationDraft :=
  { id := 4, job_id := 3, profile_version := 1, cv_variant_id := 2,
    cv_patch := { summary_update := "s", skills_highlighted := [], why := "w" },
    cv_content := "CV content", cover_letter := none, status := "approved" }

/-- Demo outreach draft. -/
def demoOutreach : OutreachDraft :=
  { id := 5, job_id := 3, contacts := [], connection_note := "note",
    follow_up_message := "f", email_variant := "e", status := "approved" }

/-- Demo review batch (still open). -/
def demoBatch : ReviewBatch := { id := 6, item_count := 1 }

/-- Demo review batch item. -/
def demoBatchItem : ReviewBatchItem :=
  { id := 7, batch_id := 6, application_draft_id := 4, outreach_draft_id := 5,
    job_id := 3, priority_score := 50 }

/-- Demo execution plan whose status is already "completed". -/
def demoPlanDone : ExecutionPlan :=
  { id := 8, batch_id := 6, status := "completed", approved_count := 1 }

/-- Demo plan item: submit the application. -/
def demoItemApp : ExecutionPlanItem :=
  { id := 9, plan_id := 8, batch_item_id := 7, action := "submit_application",
    channel := "job_board" }

/-- Demo plan item: send the outreach. -/
def demoItemOut : ExecutionPlanItem :=
  { id := 10, plan_id := 8, batch_item_id := 7, action := "send_outreach",
    channel := "linkedin_email" }

/-- The assembled demo store. -/
def demoDb : DB :=
  { profiles := [demoProfile], policies := [demoPolicy], cv_variants := [demoVariant],
    jobs := [demoJob], app_drafts := [demoAppDraft], outreach_drafts := [demoOutreach],
    batches := [demoBatch], batch_items := [demoBatchItem], plans := [demoPlanDone],
    plan_items := [demoItemApp, demoItemOut], next_id := 11 }

/-- A second demo plan. -/
def demoPlan2 : ExecutionPlan := { id := 12, batch_id := 6 }

/-- A plan item that references a batch item that does not exist. -/
def demoDanglingItem : ExecutionPlanItem :=
  { id := 13, plan_id := 12, batch_item_id := 999, action := "submit_application",
    channel := "job_board" }

/-- Demo store with a second plan whose only item dangles (batch item 999
does not exist). -/
def demoDbDangling : DB :=
  { demoDb with
    plans := demoDb.plans ++ [demoPlan2],
    plan_items := demoDb.plan_items ++ [demoDanglingItem],
    next_id := 14 }

/-- Demo policy that allows zero applications. -/
def demoRatePolicy : TargetingPolicy :=
  { demoPolicy with daily_rate_limits := [("application", 0), ("outreach", 40)] }

/-- Demo store whose policy allows zero applications. -/
def demoDbRate : DB :=
  { demoDb with policies := [demoRatePolicy] }

/-- Raw source job A (no query string on the apply URL). -/
def rawJobA : SourceJob :=
  { source := "venture_capital_careers", source_job_id := "a-1",
    company := "NorthBridge Ventures", title := "Investment Analyst",
    location := "London, UK", apply_url := "https://jobs.northbridge.vc/investment-analyst",
    description := "Evaluate businesses.", required_skills := ["economics"],
    cover_letter_required := false }

/-- Raw source job B: the same posting mirrored with a tracking query
parameter. -/
def rawJobB : SourceJob :=
  { rawJobA with
    source := "wellfound"
    source_job_id := "b-3"
    apply_url := "https://jobs.northbridge.vc/investment-analyst?src=wellfound" }

/-- A job stored as "blocked" at discovery (suppressed company/domain),
with the relevance-score column default 0. -/
def demoBlockedJob : JobRecord :=
  { id := 20, source := "company_site", source_job_id := "blk-1", company := "BadCo",
    title := "Analyst", location := "Remote", apply_url := "https://spam.example/x",
    description := "d", required_skills := [], cover_letter_required := false,
    fingerprint := "fp-bad", relevance_score := 0, status := "blocked" }

/-- The demo store extended with a blocked job. -/
def demoDbBlocked : DB :=
  { demoDb with jobs := demoDb.jobs ++ [demoBlockedJob], next_id := 21 }

/-! ## Shared lemmas -/

theorem ratRound2_nonneg {q : ℚ} (h : 0 ≤ q) : 0 ≤ ratRound2 q := by
  unfold ratRound2
  apply div_nonneg _ (by norm_num)
  have h0 : (0 : ℤ) ≤ round (q * 100) := by
    rw [round_eq]
    apply Int.le_floor.mpr
    push_cast
    linarith
  exact_mod_cast h0

theorem ratRound2_le_100 {q : ℚ} (h : q ≤ 100) : ratRound2 q ≤ 100 := by
  unfold ratRound2
  rw [div_le_iff₀ (by norm_num : (0 : ℚ) < 100)]
  have hr : round (q * 100) ≤ 10000 := by
    rw [round_eq]
    have h1 : q * 100 + 1 / 2 ≤ (10000 : ℚ) + 1 / 2 := by linarith
    have h2 : ⌊(10000 : ℚ) + 1 / 2⌋ = 10000 := by
      rw [Int.floor_eq_iff]
      constructor <;> norm_num
    calc ⌊q * 100 + 1 / 2⌋ ≤ ⌊(10000 : ℚ) + 1 / 2⌋ := Int.floor_le_floor h1
      _ = 10000 := h2
  have : ((round (q * 100) : ℤ) : ℚ) ≤ 10000 := by exact_mod_cast hr
  linarith

theorem sourceWeight_nonneg (pr : List String) (s : String) :
    0 ≤ lookupD (getSourceWeights pr) s 0 := by
  unfold lookupD
  cases hfind : (getSourceWeights pr).find? (fun kv => kv.1 == s) with
  | none => exact le_refl 0
  | some kv =>
    have hmem := List.mem_of_find?_eq_some hfind
    unfold getSourceWeights at hmem
    rw [List.mem_map] at hmem
    obtain ⟨ab, _hab, heq⟩ := hmem
    show 0 ≤ kv.2
    by_cases hin : ab.2 ∈ pr
    · rw [if_pos hin] at heq
      have hval : kv.2 = ratRound2
          ((((max pr.length 1 : ℕ) : ℚ) - (List.indexOf ab.2 pr : ℚ)) /
            ((max pr.length 1 : ℕ) : ℚ) * 20) := by
        rw [← heq]
      rw [hval]
      apply ratRound2_nonneg
      have hlt : List.indexOf ab.2 pr < pr.length := List.indexOf_lt_length.mpr hin
      have hle : List.indexOf ab.2 pr ≤ max pr.length 1 :=
        le_trans (le_of_lt hlt) (le_max_left _ _)
      have hcast : (List.indexOf ab.2 pr : ℚ) ≤ ((max pr.length 1 : ℕ) : ℚ) := by
        exact_mod_cast hle
      have htot : (0 : ℚ) ≤ ((max pr.length 1 : ℕ) : ℚ) := by positivity
      have : (0 : ℚ) ≤ ((max pr.length 1 : ℕ) : ℚ) - (List.indexOf ab.2 pr : ℚ) := by
        linarith
      positivity
    · rw [if_neg hin] at heq
      have hval : kv.2 = 3 := by rw [← heq]
      rw [hval]
      norm_num

theorem relevanceScoreRaw_nonneg (job : JobRecord) (p : CandidateProfile)
    (policy : Option TargetingPolicy) (cfg : ProfileConfig) :
    0 ≤ relevanceScoreRaw job p policy cfg := by
  have hsw : 0 ≤ lookupD (getSourceWeights cfg.job_source_priority) job.source 0 :=
    sourceWeight_nonneg _ _
  cases policy <;>
    (unfold relevanceScoreRaw; dsimp only; repeat' apply add_nonneg) <;>
    first
      | exact hsw
      | positivity

/-! ## C5: relevance_score is pure, deterministic, and bounded in [0, 100] -/

/-- C5: relevance_score is a pure, deterministic function (the embedding is a
function of its four arguments, and repeated applications to identical inputs
are definitionally equal), and its output always lies in [0, 100]: every
bonus is non-negative and the total is capped at 100 before rounding. -/
theorem relevanceScore_pure_and_bounded (job : JobRecord) (profile : Option CandidateProfile)
    (policy : Option TargetingPolicy) (cfg : ProfileConfig) :
    relevanceScore job profile policy cfg = relevanceScore job profile policy cfg ∧
    0 ≤ relevanceScore job profile policy cfg ∧
    relevanceScore job profile policy cfg ≤ 100 := by
  refine ⟨rfl, ?_, ?_⟩
  · cases profile with
    | none => simp [relevanceScore]
    | some p =>
      show 0 ≤ ratRound2 (min (relevanceScoreRaw job p policy cfg) 100)
      exact ratRound2_nonneg (le_min (relevanceScoreRaw_nonneg job p policy cfg) (by norm_num))
  · cases profile with
    | none => simp [relevanceScore]
    | some p =>
      show ratRound2 (min (relevanceScoreRaw job p policy cfg) 100) ≤ 100
      exact ratRound2_le_100 (min_le_right _ _)

/-! ## C9: without a policy, no job is ever blocked -/

/-- C9: when no targeting policy exists, should_block_job returns false for
every job, including jobs with blank title or company. -/
theorem shouldBlockJob_none_never_blocks (job : JobRecord) :
    shouldBlockJob job none = false := rfl

/-! ## C2: the blocking predicate -/

/-- C2 counterexample: the claim quantifies over the absent-policy case as
well, where its blank-title disjunct still demands blocking; the code
returns false for every job when no policy is present.  At the concrete
blank-title job the claim's predicate says "block" while the code does not
block. -/
theorem shouldBlockJob_spec_counterexample :
    specShouldBlock blankTitleJob none = true ∧
    shouldBlockJob blankTitleJob none = false := by
  constructor <;> decide

/-- C2 amended: when a policy is present, should_block_job returns true
exactly on a case-insensitive suppression-company match, a suppressed-domain
substring of the apply URL, or a blank title/company; when no policy is
present it returns false for every job. -/
theorem shouldBlockJob_some_eq (job : JobRecord) (p : TargetingPolicy) :
    shouldBlockJob job (some p) =
      (p.suppression_companies.any (fun c => strLower c == strLower job.company) ||
       p.suppression_domains.any (fun d => strContains (strLower job.apply_url) (strLower d)) ||
       (strTrim job.title == "" || strTrim job.company == "")) := by
  unfold shouldBlockJob
  cases hc : p.suppression_companies.any (fun c => strLower c == strLower job.company) <;>
  cases hd : p.suppression_domains.any
      (fun d => strContains (strLower job.apply_url) (strLower d)) <;>
  cases hb : (strTrim job.title == "" || strTrim job.company == "") <;>
    simp [hc, hd, hb]

theorem shouldBlockJob_characterization (job : JobRecord) (p : TargetingPolicy) :
    (shouldBlockJob job (some p) = true ↔
      ((∃ c ∈ p.suppression_companies, strLower c = strLower job.company) ∨
       (∃ d ∈ p.suppression_domains, strContains (strLower job.apply_url) (strLower d) = true) ∨
       strTrim job.title = "" ∨ strTrim job.company = "")) ∧
    shouldBlockJob job none = false := by
  refine ⟨?_, rfl⟩
  rw [shouldBlockJob_some_eq]
  simp [List.any_eq_true, or_assoc]

/-! ## C3: the rate-limit check of the compliance gate -/

theorem limitKeyOf_cases (action : String) :
    limitKeyOf action = "application" ∨ limitKeyOf action = "outreach" := by
  unfold limitKeyOf
  split <;> simp

theorem complianceAppCheck_ne_rate (db : DB) (item : ReviewBatchItem) (action k : String)
    (hk : k = "application" ∨ k = "outreach") :
    complianceAppCheck db item action ≠ (false, some ("Rate limit exceeded for " ++ k)) := by
  unfold complianceAppCheck
  rcases hk with hk | hk <;> subst hk <;> (repeat' split) <;>
    intro h <;> exact absurd h (by decide)

theorem complianceTail_rateLimit_iff (db : DB) (item : ReviewBatchItem) (action : String)
    (limits : List (String × Nat)) :
    (complianceTail db item action limits =
        (false, some ("Rate limit exceeded for " ++ limitKeyOf action)) ↔
      lookupD limits (limitKeyOf action) 40 ≤ successCount db (limitKeyOf action)) := by
  unfold complianceTail
  by_cases hle : lookupD limits (limitKeyOf action) 40 ≤ successCount db (limitKeyOf action)
  · rw [if_pos hle]
    simp [hle]
  · rw [if_neg hle]
    constructor
    · intro heq
      exfalso
      rcases limitKeyOf_cases action with hk | hk <;> rw [hk] at heq <;>
        revert heq <;> dsimp only <;>
        (repeat' split) <;> intro heq <;>
        first
          | exact absurd heq (by decide)
          | exact complianceAppCheck_ne_rate db item action "application" (Or.inl rfl) heq
          | exact complianceAppCheck_ne_rate db item action "outreach" (Or.inr rfl) heq
    · intro h
      exact absurd h hle

/-- C3: after item and job resolve and the suppression checks pass, the
compliance gate returns the rate-limit refusal exactly when the count of
successful events whose type matches the action's category reaches the
policy's limit for that category (defaulting to 40 when no policy or no
entry is present); the count ranges over the entire event log — the
embedded event record carries no timestamp and the query has no time
window. -/
theorem complianceGate_rateLimit (db : DB) (item_id : Nat) (action channel : String)
    (item : ReviewBatchItem) (job : JobRecord)
    (hitem : db.getBatchItem item_id = some item)
    (hjob : db.getJob item.job_id = some job)
    (hnosup : ∀ p, dbActivePolicy db = some p →
      p.suppression_companies.any (fun c => strLower c == strLower job.company) = false ∧
      p.suppression_domains.any
        (fun d => strContains (strLower (urlNetlocPath job.apply_url).1) (strLower d)) = false) :
    (runComplianceChecks db item_id action channel =
        (false, some ("Rate limit exceeded for " ++ limitKeyOf action)) ↔
      lookupD (activeLimits db) (limitKeyOf action) 40 ≤
        successCount db (limitKeyOf action)) ∧
    (dbActivePolicy db = none → lookupD (activeLimits db) (limitKeyOf action) 40 = 40) := by
  unfold runComplianceChecks
  rw [hitem]
  dsimp only
  rw [hjob]
  dsimp only
  cases hpol : dbActivePolicy db with
  | none =>
    refine ⟨?_, ?_⟩
    · have hlim : activeLimits db = defaultLimits := by rw [activeLimits, hpol]
      rw [hlim]
      exact complianceTail_rateLimit_iff db item action defaultLimits
    · intro _
      have hlim : activeLimits db = defaultLimits := by rw [activeLimits, hpol]
      rw [hlim]
      rcases limitKeyOf_cases action with hk | hk <;> rw [hk] <;> decide
  | some p =>
    obtain ⟨hc, hd⟩ := hnosup p hpol
    dsimp only
    rw [hc, hd]
    simp only [Bool.false_eq_true, if_false]
    refine ⟨?_, ?_⟩
    · have hlim : activeLimits db =
          (if p.daily_rate_limits.isEmpty then defaultLimits else p.daily_rate_limits) := by
        rw [activeLimits, hpol]
      rw [hlim]
      exact complianceTail_rateLimit_iff db item action _
    · intro hnone
      exact absurd hnone (by simp)

theorem complianceGate_rateLimit_witness :
    (runComplianceChecks demoDbRate 7 "submit_application" "job_board" =
        (false, some ("Rate limit exceeded for " ++ limitKeyOf "submit_application")) ↔
      lookupD (activeLimits demoDbRate) (limitKeyOf "submit_application") 40 ≤
        successCount demoDbRate (limitKeyOf "submit_application")) ∧
    (dbActivePolicy demoDbRate = none →
      lookupD (activeLimits demoDbRate) (limitKeyOf "submit_application") 40 = 40) := by
  apply complianceGate_rateLimit demoDbRate 7 "submit_application" "job_board"
      demoBatchItem demoJob (by decide) (by decide)
  intro p hp
  have heval : dbActivePolicy demoDbRate = some demoRatePolicy := by decide
  rw [heval] at hp
  cases hp
  exact ⟨by decide, by decide⟩

/-! ## Execution-engine helper lemmas -/

theorem attemptSeq_db (plan_id : Nat) (item : ExecutionPlanItem) (job : JobRecord) :
    ∀ (l : List Nat) (db : DB) (e : Option String) (p : Nat), ∃ evs,
      (attemptSeq plan_id item job db e p l).1 = { db with events := db.events ++ evs } := by
  intro l
  induction l with
  | nil =>
    intro db e p
    exact ⟨[], by unfold attemptSeq; simp⟩
  | cons a rest ih =>
    intro db e p
    unfold attemptSeq
    dsimp only
    split
    · exact ⟨[], by simp⟩
    · obtain ⟨evs, hevs⟩ := ih _ _ _
      exact ⟨{ plan_id := plan_id, plan_item_id := item.id, job_id := job.id,
               event_type := eventTypeOf item.action, channel := item.channel,
               status := "retrying", attempt := a,
               error_message := (attemptAction job a).2 } :: evs, by
        rw [hevs]
        simp [DB.addEvent]⟩

theorem attemptSeq_success_one (plan_id : Nat) (item : ExecutionPlanItem) (job : JobRecord)
    (db : DB) (e : Option String) (p a : Nat) (rest : List Nat)
    (h : (attemptAction job a).1 = true) :
    attemptSeq plan_id item job db e p (a :: rest) = (db, true, a, e) := by
  unfold attemptSeq
  dsimp only
  rw [if_pos h]

theorem getJob_setJobStatus (db : DB) (i k : Nat) (st : String) :
    (db.setJobStatus i st).getJob k =
      (db.getJob k).map (fun j => if j.id == i then { j with status := st } else j) := by
  unfold DB.getJob DB.setJobStatus
  dsimp only
  rw [List.find?_map]
  have hfun : ((fun j : JobRecord => j.id == k) ∘
      fun j : JobRecord => if j.id == i then { j with status := st } else j) =
      fun j : JobRecord => j.id == k := by
    funext x
    by_cases hx : x.id == i
    · simp only [Function.comp_apply, if_pos hx]
    · simp only [Function.comp_apply, if_neg hx]
  rw [hfun]

theorem getPlan_setPlanStatus (db : DB) (i k : Nat) (st : String) :
    (db.setPlanStatus i st).getPlan k =
      (db.getPlan k).map (fun p => if p.id == i then { p with status := st } else p) := by
  unfold DB.getPlan DB.setPlanStatus
  dsimp only
  rw [List.find?_map]
  have hfun : ((fun p : ExecutionPlan => p.id == k) ∘
      fun p : ExecutionPlan => if p.id == i then { p with status := st } else p) =
      fun p : ExecutionPlan => p.id == k := by
    funext x
    by_cases hx : x.id == i
    · simp only [Function.comp_apply, if_pos hx]
    · simp only [Function.comp_apply, if_neg hx]
  rw [hfun]

theorem getBatchItem_setBatchItemStatus (db : DB) (i k : Nat) (st : String) :
    (db.setBatchItemStatus i st).getBatchItem k =
      (db.getBatchItem k).map
        (fun it => if it.id == i then { it with status := st } else it) := by
  unfold DB.getBatchItem DB.setBatchItemStatus
  dsimp only
  rw [List.find?_map]
  have hfun : ((fun it : ReviewBatchItem => it.id == k) ∘
      fun it : ReviewBatchItem => if it.id == i then { it with status := st } else it) =
      fun it : ReviewBatchItem => it.id == k := by
    funext x
    by_cases hx : x.id == i
    · simp only [Function.comp_apply, if_pos hx]
    · simp only [Function.comp_apply, if_neg hx]
  rw [hfun]

theorem executeItem_plans (plan_id : Nat) (db : DB) (results : List ExecutionItemResult)
    (item : ExecutionPlanItem) :
    ((executeItem plan_id (db, results) item).1).plans = db.plans := by
  unfold executeItem
  dsimp only
  cases hbi : db.getBatchItem item.batch_item_id with
  | none => rfl
  | some bi =>
    dsimp only
    cases hjob : db.getJob bi.job_id with
    | none => rfl
    | some job =>
      dsimp only
      obtain ⟨evs, hevs⟩ := attemptSeq_db plan_id item job [1, 2, 3] db none 0
      repeat' split
      all_goals (try rfl)
      all_goals (rw [hevs]; rfl)

theorem foldExec_plans (plan_id : Nat) (items : List ExecutionPlanItem) :
    ∀ (db : DB) (results : List ExecutionItemResult),
      ((items.foldl (executeItem plan_id) (db, results)).1).plans = db.plans := by
  induction items with
  | nil => intro db results; rfl
  | cons it rest ih =>
    intro db results
    rw [List.foldl_cons]
    have hp := executeItem_plans plan_id db results it
    rcases hstep : executeItem plan_id (db, results) it with ⟨db1, res1⟩
    rw [hstep] at hp
    rw [ih db1 res1]
    exact hp

theorem executePlan_completes (db : DB) (plan_id : Nat) (plan : ExecutionPlan)
    (hplan : db.getPlan plan_id = some plan) :
    ∃ db2 res, executePlan db plan_id = .ok (db2, res) ∧
      db2.getPlan plan_id = some { plan with status := "completed" } := by
  have hpid : plan.id = plan_id := by
    have := List.find?_some hplan
    simpa using this
  unfold executePlan
  rw [hplan]
  dsimp only
  refine ⟨_, _, rfl, ?_⟩
  show ((((sortByLe _ _).foldl (executeItem plan.id)
      (db, [])).1.setPlanStatus plan.id "completed").logEvent _ _ _).getPlan plan_id =
    some { plan with status := "completed" }
  have hlog : ∀ (d : DB) (a : String) (b : Nat) (c : String),
      (d.logEvent a b c).getPlan plan_id = d.getPlan plan_id := by
    intro d a b c
    rfl
  rw [hlog, getPlan_setPlanStatus]
  have hfold : ((sortByLe (fun a b => decide (a.id ≤ b.id))
      (db.plan_items.filter (fun it => it.plan_id == plan_id))).foldl
        (executeItem plan.id) (db, [])).1.plans = db.plans :=
    foldExec_plans plan.id _ db []
  have hget : ((sortByLe (fun a b => decide (a.id ≤ b.id))
      (db.plan_items.filter (fun it => it.plan_id == plan_id))).foldl
        (executeItem plan.id) (db, [])).1.getPlan plan_id = some plan := by
    unfold DB.getPlan
    rw [hfold]
    exact hplan
  rw [hget]
  simp [hpid]

/-! ## C10: dangling plan items are silently skipped, plan still completes -/

/-- C10: execute_plan silently skips a plan item whose referenced batch item
or job does not exist — the step leaves the store and the per-item result
list entirely unchanged (no event, no result, no status change) and raises
no error — and the plan is still marked "completed" after the loop. -/
theorem executePlan_silently_skips_dangling (plan_id : Nat) (db : DB)
    (results : List ExecutionItemResult) (item : ExecutionPlanItem) (plan : ExecutionPlan)
    (hplan : db.getPlan plan_id = some plan)
    (hmiss : db.getBatchItem item.batch_item_id = none ∨
      ∃ bi, db.getBatchItem item.batch_item_id = some bi ∧ db.getJob bi.job_id = none) :
    executeItem plan_id (db, results) item = (db, results) ∧
    ∃ db2 res, executePlan db plan_id = .ok (db2, res) ∧
      db2.getPlan plan_id = some { plan with status := "completed" } := by
  constructor
  · unfold executeItem
    dsimp only
    rcases hmiss with h | ⟨bi, hbi, hjob⟩
    · simp only [h]
    · simp only [hbi, hjob]
  · exact executePlan_completes db plan_id plan hplan

theorem executePlan_silently_skips_dangling_witness :
    executeItem 12 (demoDbDangling, []) demoDanglingItem = (demoDbDangling, []) ∧
    ∃ db2 res, executePlan demoDbDangling 12 = .ok (db2, res) ∧
      db2.getPlan 12 = some { demoPlan2 with status := "completed" } :=
  executePlan_silently_skips_dangling 12 demoDbDangling [] demoDanglingItem demoPlan2
    (by decide) (Or.inl (by decide))

/-! ## C7: job-status side effects of a successful execution attempt -/

/-- C7: on a successful attempt, submit_application sets the job's status to
"applied"; send_outreach sets it to "outreach_sent" only when the job was
already "applied", and leaves the job untouched otherwise — in particular a
successful outreach never advances a job that is still "pending_review", so
job status only follows pending_review to applied to outreach_sent. -/
theorem executeItem_success_transitions (plan_id : Nat) (db : DB)
    (results : List ExecutionItemResult) (item : ExecutionPlanItem)
    (batch_item : ReviewBatchItem) (job : JobRecord)
    (hbi : db.getBatchItem item.batch_item_id = some batch_item)
    (hjob : db.getJob batch_item.job_id = some job)
    (hcomp : (runComplianceChecks db batch_item.id item.action item.channel).1 = true)
    (hok : (attemptSeq plan_id item job db none 0 [1, 2, 3]).2.1 = true) :
    (item.action = "submit_application" →
      ((executeItem plan_id (db, results) item).1).getJob job.id =
        some { job with status := "applied" }) ∧
    (item.action = "send_outreach" → job.status = "applied" →
      ((executeItem plan_id (db, results) item).1).getJob job.id =
        some { job with status := "outreach_sent" }) ∧
    (item.action = "send_outreach" → job.status ≠ "applied" →
      ((executeItem plan_id (db, results) item).1).getJob job.id = some job) := by
  have hjid : job.id = batch_item.job_id := by
    have := List.find?_some hjob
    simpa using this
  have hjget : db.getJob job.id = some job := by rw [hjid]; exact hjob
  obtain ⟨evs, hevs⟩ := attemptSeq_db plan_id item job [1, 2, 3] db none 0
  have hjget2 : ∀ (i : Nat) (s : String) (ev : ExecutionEvent),
      ((((attemptSeq plan_id item job db none 0 [1, 2, 3]).1.setPlanItemStatus
        i s).addEvent ev)).getJob job.id = some job := by
    intro i s ev
    show ((attemptSeq plan_id item job db none 0 [1, 2, 3]).1).getJob job.id = some job
    rw [hevs]
    exact hjget
  unfold executeItem
  dsimp only
  rw [hbi]
  dsimp only
  rw [hjob]
  dsimp only
  rw [hcomp]
  simp only [Bool.not_true, Bool.false_eq_true, if_false]
  rw [hok]
  simp only [if_true]
  refine ⟨?_, ?_, ?_⟩
  · intro ha
    rw [ha]
    simp only [beq_self_eq_true, if_true]
    rw [getJob_setJobStatus]
    rw [hjget2]
    simp
  · intro ha hst
    rw [ha]
    simp only [show (("send_outreach" == "submit_application") = false) from rfl,
      Bool.false_eq_true, if_false]
    rw [hst]
    simp only [beq_self_eq_true, if_true]
    rw [getJob_setJobStatus]
    rw [hjget2]
    simp
  · intro ha hst
    rw [ha]
    simp only [show (("send_outreach" == "submit_application") = false) from rfl,
      Bool.false_eq_true, if_false]
    have hne : (job.status == "applied") = false := by
      exact beq_eq_false_iff_ne.mpr hst
    rw [hne]
    simp only [Bool.false_eq_true, if_false]
    exact hjget2 _ _ _

theorem executeItem_success_transitions_witness :
    ((executeItem 8 (demoDb, []) demoItemApp).1).getJob demoJob.id =
      some { demoJob with status := "applied" } :=
  (executeItem_success_transitions 8 demoDb [] demoItemApp demoBatchItem demoJob
    (by decide) (by decide) (by decide) (by decide)).1 rfl

/-! ## List helpers for the URL-parsing proofs -/

theorem takeWhile_append_of_all {α : Type} {p : α → Bool} {l₁ : List α} (l₂ : List α)
    (h : ∀ x ∈ l₁, p x = true) :
    (l₁ ++ l₂).takeWhile p = l₁ ++ l₂.takeWhile p := by
  induction l₁ with
  | nil => simp
  | cons a as ih =>
    have ha := h a (by simp)
    simp only [List.cons_append, List.takeWhile_cons, ha, if_true]
    rw [ih (fun x hx => h x (by simp [hx]))]

theorem takeWhile_append_of_stop {α : Type} {p : α → Bool} {l₁ : List α} (l₂ : List α)
    (h : l₁.all p = false) :
    (l₁ ++ l₂).takeWhile p = l₁.takeWhile p := by
  induction l₁ with
  | nil => simp at h
  | cons a as ih =>
    cases hpa : p a with
    | false => simp [List.takeWhile_cons, hpa]
    | true =>
      have has : as.all p = false := by
        have := h
        simp only [List.all_cons, hpa, Bool.true_and] at this
        exact this
      simp only [List.cons_append, List.takeWhile_cons, hpa, if_true]
      rw [ih has]

theorem takeWhile_append_cons_neg {α : Type} {p : α → Bool} {a : α} (l₁ l₂ : List α)
    (ha : p a = false) :
    (l₁ ++ a :: l₂).takeWhile p = l₁.takeWhile p := by
  by_cases hall : l₁.all p = true
  · rw [takeWhile_append_of_all (a :: l₂) (List.all_eq_true.mp hall)]
    rw [List.takeWhile_cons, ha]
    simp [List.takeWhile_eq_self_iff.mpr (List.all_eq_true.mp hall)]
  · have : l₁.all p = false := by
      cases h : l₁.all p
      · rfl
      · exact absurd h hall
    exact takeWhile_append_of_stop _ this

theorem dropWhile_append_cons_neg {α : Type} {p : α → Bool} {a : α} (l₁ l₂ : List α)
    (ha : p a = false) :
    (l₁ ++ a :: l₂).dropWhile p = l₁.dropWhile p ++ a :: l₂ := by
  induction l₁ with
  | nil => simp [List.dropWhile_cons, ha]
  | cons b bs ih =>
    cases hpb : p b with
    | false => simp [List.dropWhile_cons, hpb]
    | true =>
      simp only [List.cons_append, List.dropWhile_cons, hpb, if_true]
      exact ih

theorem all_eq_false_of_mem {α : Type} {p : α → Bool} {a : α} {l : List α}
    (ha : a ∈ l) (hpa : p a = false) : l.all p = false := by
  cases h : l.all p with
  | false => rfl
  | true =>
    rw [List.all_eq_true] at h
    rw [h a ha] at hpa
    cases hpa

/-! ## The query string never reaches netloc or path -/

theorem dropSchemeChars_append_query (l : List Char) :
    ∃ r, (∀ x ∈ r, x ∈ l) ∧ dropSchemeChars l = r ∧
      ∀ q' : List Char, dropSchemeChars (l ++ '?' :: q') = r ++ '?' :: q' := by
  by_cases hall : l.all (fun c => c != ':') = true
  · -- no colon inside l: no scheme is split off, with or without a query
    refine ⟨l, fun x hx => hx, ?_, fun q' => ?_⟩
    · unfold dropSchemeChars
      dsimp only
      rw [List.takeWhile_eq_self_iff.mpr (List.all_eq_true.mp hall)]
      cases hl : l with
      | nil => rfl
      | cons c0 ls =>
        have : (decide ((c0 :: ls).length < (c0 :: ls).length)) = false := by
          simp
        rw [this]
        simp
    · unfold dropSchemeChars
      dsimp only
      rw [takeWhile_append_of_all _ (List.all_eq_true.mp hall)]
      rw [List.takeWhile_cons]
      simp only [show (('?' : Char) != ':') = true from rfl, if_true]
      cases hl : l with
      | nil =>
        have hfa : (('?' : Char).isAlpha) = false := by decide
        simp [hfa]
      | cons c0 ls =>
        simp only [List.cons_append]
        have hmem : ('?' : Char) ∈ c0 :: (ls ++ '?' :: q'.takeWhile (fun c => c != ':')) := by
          simp
        have hfalse : ((c0 :: (ls ++ '?' :: q'.takeWhile (fun c => c != ':'))).all
            isSchemeChar) = false :=
          all_eq_false_of_mem hmem (by decide)
        rw [hfalse]
        simp
  · -- a colon occurs in l: the candidate scheme is independent of the query
    have hallf : l.all (fun c => c != ':') = false := by
      cases h : l.all (fun c => c != ':')
      · rfl
      · exact absurd h hall
    have hne : l.takeWhile (fun c => c != ':') ≠ l := by
      intro he
      rw [List.takeWhile_eq_self_iff] at he
      rw [List.all_eq_true.mpr he] at hallf
      cases hallf
    have hlt : (l.takeWhile (fun c => c != ':')).length < l.length :=
      lt_of_le_of_ne (List.takeWhile_sublist _).length_le
        (fun hlen => hne ((List.takeWhile_sublist _).eq_of_length hlen))
    cases hp0 : l.takeWhile (fun c => c != ':') with
    | nil =>
      refine ⟨l, fun x hx => hx, ?_, fun q' => ?_⟩
      · unfold dropSchemeChars
        dsimp only
        rw [hp0]
      · unfold dropSchemeChars
        dsimp only
        rw [takeWhile_append_of_stop _ hallf, hp0]
    | cons c0 t =>
      rw [hp0] at hlt
      by_cases hcond : (c0.isAlpha && (c0 :: t).all isSchemeChar) = true
      · refine ⟨l.drop ((c0 :: t).length + 1),
          fun x hx => (List.drop_sublist _ _).subset hx, ?_, fun q' => ?_⟩
        · unfold dropSchemeChars
          dsimp only
          rw [hp0]
          simp only [Bool.and_eq_true] at hcond
          simp only [decide_eq_true hlt, Bool.true_and, hcond.1, hcond.2, Bool.and_self,
            if_true]
        · unfold dropSchemeChars
          dsimp only
          rw [takeWhile_append_of_stop _ hallf, hp0]
          have hlen2 : ((c0 :: t).length < (l ++ '?' :: q').length) := by
            simp only [List.length_append, List.length_cons] at hlt ⊢
            omega
          simp only [Bool.and_eq_true] at hcond
          simp only [decide_eq_true hlen2, Bool.true_and, hcond.1, hcond.2, Bool.and_self,
            if_true]
          apply List.drop_append_of_le_length
          simp only [List.length_cons] at hlt ⊢
          omega
      · have hcondf : (c0.isAlpha && (c0 :: t).all isSchemeChar) = false := by
          cases h : (c0.isAlpha && (c0 :: t).all isSchemeChar)
          · rfl
          · exact absurd h hcond
        simp only [Bool.and_eq_false_iff] at hcondf
        refine ⟨l, fun x hx => hx, ?_, fun q' => ?_⟩
        · unfold dropSchemeChars
          dsimp only
          rw [hp0]
          rcases hcondf with h | h <;> simp [h]
        · unfold dropSchemeChars
          dsimp only
          rw [takeWhile_append_of_stop _ hallf, hp0]
          rcases hcondf with h | h <;> simp [h]

theorem splitNetlocChars_eq (l : List Char) :
    (∃ rest, l = '/' :: '/' :: rest ∧
      splitNetlocChars l = (rest.takeWhile (fun c => !isNetlocStop c),
                            rest.dropWhile (fun c => !isNetlocStop c))) ∨
    splitNetlocChars l = ([], l) := by
  unfold splitNetlocChars
  split
  · next rest => exact Or.inl ⟨rest, rfl, rfl⟩
  · exact Or.inr rfl

theorem startsWithSlashes_of_append (r q rest : List Char)
    (h : r ++ '?' :: q = '/' :: '/' :: rest) : ∃ r2, r = '/' :: '/' :: r2 := by
  rcases r with _ | ⟨c1, r1⟩
  · have hbad : ('?' : Char) = '/' := by
      simpa using congrArg (fun s => s.headD ' ') h
    exact absurd hbad (by decide)
  rcases r1 with _ | ⟨c2, r2⟩
  · have hbad : ('?' : Char) = '/' := by
      simpa using congrArg (fun s => (s.drop 1).headD ' ') h
    exact absurd hbad (by decide)
  · refine ⟨r2, ?_⟩
    have h1 : c1 = '/' := by simpa using congrArg (fun s => s.headD ' ') h
    have h2 : c2 = '/' := by simpa using congrArg (fun s => (s.drop 1).headD ' ') h
    rw [h1, h2]

theorem netlocTail_indep (r2 : List Char) (hh2 : ∀ x ∈ r2, x ≠ '#') (q : List Char) :
    ((splitNetlocChars ('/' :: '/' :: (r2 ++ '?' :: q))).1,
      ((splitNetlocChars ('/' :: '/' :: (r2 ++ '?' :: q))).2.takeWhile
        (fun c => c != '#')).takeWhile (fun c => c != '?')) =
    (r2.takeWhile (fun c => !isNetlocStop c),
      ((r2.dropWhile (fun c => !isNetlocStop c)).takeWhile
        (fun c => c != '#')).takeWhile (fun c => c != '?')) := by
  have hsplit : splitNetlocChars ('/' :: '/' :: (r2 ++ '?' :: q)) =
      ((r2 ++ '?' :: q).takeWhile (fun c => !isNetlocStop c),
       (r2 ++ '?' :: q).dropWhile (fun c => !isNetlocStop c)) := rfl
  rw [hsplit]
  dsimp only
  rw [takeWhile_append_cons_neg _ _ (by decide),
      dropWhile_append_cons_neg _ _ (by decide)]
  have hsub : ∀ x ∈ r2.dropWhile (fun c => !isNetlocStop c), x ≠ '#' :=
    fun x hx => hh2 x ((List.dropWhile_sublist _).subset hx)
  have h1 : (r2.dropWhile (fun c => !isNetlocStop c) ++ '?' :: q).takeWhile
      (fun c => c != '#') =
      r2.dropWhile (fun c => !isNetlocStop c) ++ ('?' :: q).takeWhile (fun c => c != '#') :=
    takeWhile_append_of_all _ (fun x hx => by simpa using hsub x hx)
  rw [h1, List.takeWhile_cons]
  simp only [show (('?' : Char) != '#') = true from rfl, if_true]
  rw [takeWhile_append_cons_neg _ _ (by decide)]
  have h2 : (r2.dropWhile (fun c => !isNetlocStop c)).takeWhile (fun c => c != '#') =
      r2.dropWhile (fun c => !isNetlocStop c) :=
    List.takeWhile_eq_self_iff.mpr (fun x hx => by simpa using hsub x hx)
  rw [h2]

theorem urlNetlocPathChars_append_query_plain (l q : List Char) (hh : '#' ∉ l) :
    urlNetlocPathChars (l ++ '?' :: q) = urlNetlocPathChars l := by
  obtain ⟨r, hrsub, hplain, hrall⟩ := dropSchemeChars_append_query l
  have hh' : ∀ x ∈ r, x ≠ '#' := fun x hx he => hh (he ▸ hrsub x hx)
  unfold urlNetlocPathChars
  rw [hrall q, hplain]
  dsimp only
  rcases splitNetlocChars_eq r with ⟨r2, hshape, heqr⟩ | heqr
  · subst hshape
    have hh2 : ∀ x ∈ r2, x ≠ '#' := fun x hx => hh' x (by simp [hx])
    have happ : ('/' :: '/' :: r2) ++ '?' :: q = '/' :: '/' :: (r2 ++ '?' :: q) := by
      simp
    rw [happ, netlocTail_indep r2 hh2 q, heqr]
  · rcases splitNetlocChars_eq (r ++ '?' :: q) with ⟨rest1, hshape1, -⟩ | heq1
    · exfalso
      obtain ⟨r2, hr2⟩ := startsWithSlashes_of_append r q rest1 hshape1
      subst hr2
      have hcomp : splitNetlocChars ('/' :: '/' :: r2) =
          (r2.takeWhile (fun c => !isNetlocStop c),
           r2.dropWhile (fun c => !isNetlocStop c)) := rfl
      rw [hcomp] at heqr
      have hd := congrArg Prod.snd heqr
      dsimp only at hd
      have hlen := congrArg List.length hd
      have hle := (List.dropWhile_sublist
        (l := r2) (fun c => !isNetlocStop c)).length_le
      rw [hlen] at hle
      simp only [List.length_cons] at hle
      omega
    · rw [heq1, heqr]
      dsimp only
      have h1 : (r ++ '?' :: q).takeWhile (fun c => c != '#') =
          r ++ ('?' :: q).takeWhile (fun c => c != '#') :=
        takeWhile_append_of_all _ (fun x hx => by simpa using hh' x hx)
      rw [h1, List.takeWhile_cons]
      simp only [show (('?' : Char) != '#') = true from rfl, if_true]
      rw [takeWhile_append_cons_neg _ _ (by decide)]
      have h2 : r.takeWhile (fun c => c != '#') = r :=
        List.takeWhile_eq_self_iff.mpr (fun x hx => by simpa using hh' x hx)
      rw [h2]

theorem urlNetlocPathChars_append_query (l q1 q2 : List Char) (hh : '#' ∉ l) :
    urlNetlocPathChars (l ++ '?' :: q1) = urlNetlocPathChars (l ++ '?' :: q2) := by
  rw [urlNetlocPathChars_append_query_plain l q1 hh,
      urlNetlocPathChars_append_query_plain l q2 hh]

/-! ## C4: fingerprints ignore the query string; discovery dedups -/

theorem discoverStep_insert (profile : Option CandidateProfile)
    (policy : Option TargetingPolicy) (cfg : ProfileConfig) (db : DB) (d : Nat)
    (raw : SourceJob)
    (hnone : db.jobs.find? (fun j => j.fingerprint ==
      fingerprintOf raw.company raw.title raw.location raw.apply_url) = none) :
    ∃ newJob : JobRecord,
      discoverStep profile policy cfg (db, d) raw =
        (({ db with jobs := db.jobs ++ [newJob], next_id := db.next_id + 1 } : DB).logEvent "job_record" newJob.id "discovered", d) ∧
      newJob.fingerprint =
        fingerprintOf raw.company raw.title raw.location raw.apply_url := by
  unfold discoverStep
  dsimp only
  rw [hnone]
  simp only [Option.isSome_none, Bool.false_eq_true, if_false]
  split
  · exact ⟨_, rfl, rfl⟩
  · exact ⟨_, rfl, rfl⟩

theorem discoverStep_dedup (profile : Option CandidateProfile)
    (policy : Option TargetingPolicy) (cfg : ProfileConfig) (db : DB) (d : Nat)
    (raw : SourceJob)
    (hsome : (db.jobs.find? (fun j => j.fingerprint ==
      fingerprintOf raw.company raw.title raw.location raw.apply_url)).isSome = true) :
    discoverStep profile policy cfg (db, d) raw = (db, d + 1) := by
  unfold discoverStep
  dsimp only
  rw [hsome]
  simp

/-- C4: fingerprinting is deterministic and ignores the URL query string —
two raw jobs with equal trimmed-lowercased company, title and location whose
apply URLs share the same base (hence the same host and path) and differ only
in the query string get equal fingerprints; consequently, discovering the
two jobs in sequence over a store with no matching fingerprint inserts the
first, increments the deduped counter for the second, and leaves exactly one
stored JobRecord with that fingerprint. -/
theorem fingerprint_ignores_query_and_dedups
    (j1 j2 : SourceJob) (base q1 q2 : String)
    (hc : strLower (strTrim j1.company) = strLower (strTrim j2.company))
    (ht : strLower (strTrim j1.title) = strLower (strTrim j2.title))
    (hl : strLower (strTrim j1.location) = strLower (strTrim j2.location))
    (hu1 : j1.apply_url = base ∨ j1.apply_url = base ++ "?" ++ q1)
    (hu2 : j2.apply_url = base ∨ j2.apply_url = base ++ "?" ++ q2)
    (_hbq : '?' ∉ base.data) (hbh : '#' ∉ base.data)
    (profile : Option CandidateProfile) (policy : Option TargetingPolicy)
    (cfg : ProfileConfig) (db0 : DB)
    (hnew : db0.jobs.find? (fun j => j.fingerprint ==
      fingerprintOf j1.company j1.title j1.location j1.apply_url) = none) :
    fingerprintOf j1.company j1.title j1.location j1.apply_url =
      fingerprintOf j2.company j2.title j2.location j2.apply_url ∧
    ([j1, j2].foldl (discoverStep profile policy cfg) (db0, 0)).2 = 1 ∧
    ((([j1, j2].foldl (discoverStep profile policy cfg) (db0, 0)).1.jobs.filter
        (fun j => j.fingerprint ==
          fingerprintOf j1.company j1.title j1.location j1.apply_url)).length = 1) := by
  have hfp : fingerprintOf j1.company j1.title j1.location j1.apply_url =
      fingerprintOf j2.company j2.title j2.location j2.apply_url := by
    unfold fingerprintOf
    have hurl : urlNetlocPath j1.apply_url = urlNetlocPath j2.apply_url := by
      have hdata : ∀ q : String, (base ++ "?" ++ q).data = base.data ++ '?' :: q.data := by
        intro q
        rw [String.data_append, String.data_append]
        simp
      have hside : ∀ (u : String) (q : String), u = base ++ "?" ++ q →
          urlNetlocPath u = urlNetlocPath base := by
        intro u q hu
        rw [hu]
        unfold urlNetlocPath
        rw [hdata q, urlNetlocPathChars_append_query_plain base.data q.data hbh]
      have h1 : urlNetlocPath j1.apply_url = urlNetlocPath base := by
        rcases hu1 with h | h
        · rw [h]
        · exact hside _ q1 h
      have h2 : urlNetlocPath j2.apply_url = urlNetlocPath base := by
        rcases hu2 with h | h
        · rw [h]
        · exact hside _ q2 h
      rw [h1, h2]
    rw [hc, ht, hl, hurl]
  refine ⟨hfp, ?_⟩
  obtain ⟨newJob, hstep1, hjfp⟩ := discoverStep_insert profile policy cfg db0 0 j1 hnew
  have hfold : [j1, j2].foldl (discoverStep profile policy cfg) (db0, 0) =
      discoverStep profile policy cfg
        (discoverStep profile policy cfg (db0, 0) j1) j2 := rfl
  rw [hfold, hstep1]
  set db1 : DB := ({ db0 with jobs := db0.jobs ++ [newJob], next_id := db0.next_id + 1 } : DB).logEvent "job_record" newJob.id "discovered" with hdb1
  have hjobs1 : db1.jobs = db0.jobs ++ [newJob] := rfl
  have hfind2 : (db1.jobs.find? (fun j => j.fingerprint ==
      fingerprintOf j2.company j2.title j2.location j2.apply_url)).isSome = true := by
    rw [hjobs1, ← hfp, List.find?_append, hnew]
    have : [newJob].find? (fun j => j.fingerprint ==
        fingerprintOf j1.company j1.title j1.location j1.apply_url) = some newJob := by
      have hb : (newJob.fingerprint ==
          fingerprintOf j1.company j1.title j1.location j1.apply_url) = true := by
        simp [hjfp]
      simp [List.find?, hb]
    rw [this]
    rfl
  rw [discoverStep_dedup profile policy cfg db1 0 j2 hfind2]
  refine ⟨rfl, ?_⟩
  rw [hjobs1, List.filter_append]
  have h0 : db0.jobs.filter (fun j => j.fingerprint ==
      fingerprintOf j1.company j1.title j1.location j1.apply_url) = [] := by
    rw [List.filter_eq_nil_iff]
    rw [List.find?_eq_none] at hnew
    exact hnew
  rw [h0]
  have hb : (newJob.fingerprint ==
      fingerprintOf j1.company j1.title j1.location j1.apply_url) = true := by
    simp [hjfp]
  simp [hb]

theorem fingerprint_ignores_query_and_dedups_witness :
    fingerprintOf rawJobA.company rawJobA.title rawJobA.location rawJobA.apply_url =
      fingerprintOf rawJobB.company rawJobB.title rawJobB.location rawJobB.apply_url ∧
    ([rawJobA, rawJobB].foldl
      (discoverStep none none ⟨[], [], []⟩) (emptyDb, 0)).2 = 1 ∧
    ((([rawJobA, rawJobB].foldl
        (discoverStep none none ⟨[], [], []⟩) (emptyDb, 0)).1.jobs.filter
        (fun j => j.fingerprint ==
          fingerprintOf rawJobA.company rawJobA.title rawJobA.location
            rawJobA.apply_url)).length = 1) :=
  fingerprint_ignores_query_and_dedups rawJobA rawJobB
    "https://jobs.northbridge.vc/investment-analyst" "" "src=wellfound"
    (by decide) (by decide) (by decide) (Or.inl (by decide)) (Or.inr (by decide))
    (by decide) (by decide)
    none none ⟨[], [], []⟩ emptyDb (by decide)

/-! ## C6: review decisions default to deferred -/

theorem find?_beq_id_of_nodup {α : Type} (f : α → Nat) (l : List α) (a : α)
    (hnd : (l.map f).Nodup) (ha : a ∈ l) :
    l.find? (fun x => f x == f a) = some a := by
  induction l with
  | nil => cases ha
  | cons b bs ih =>
    rcases List.mem_cons.mp ha with rfl | hmem
    · simp [List.find?_cons]
    · rw [List.map_cons] at hnd
      have hpair := List.nodup_cons.mp hnd
      have hfb : (f b == f a) = false := by
        apply beq_eq_false_iff_ne.mpr
        intro he
        exact hpair.1 (he ▸ List.mem_map_of_mem f hmem)
      rw [List.find?_cons]
      simp only [hfb, Bool.false_eq_true, if_false]
      exact ih hpair.2 hmem

theorem length_filter_mono {α : Type} (p q : α → Bool) (l : List α)
    (h : ∀ x ∈ l, p x = true → q x = true) :
    (l.filter p).length ≤ (l.filter q).length := by
  induction l with
  | nil => simp
  | cons a as ih =>
    have ih' := ih (fun x hx => h x (by simp [hx]))
    by_cases hpa : p a = true
    · rw [List.filter_cons_of_pos hpa, List.filter_cons_of_pos (h a (by simp) hpa)]
      simpa using ih'
    · rw [List.filter_cons_of_neg (by simpa using hpa)]
      cases hqa : q a
      · rw [List.filter_cons_of_neg (by simp [hqa])]
        exact ih'
      · rw [List.filter_cons_of_pos hqa]
        exact le_trans ih' (by simp)

theorem length_filter_partition {α : Type} (p : α → Bool) (l : List α) :
    (l.filter p).length + (l.filter (fun x => !p x)).length = l.length := by
  induction l with
  | nil => simp
  | cons a as ih =>
    cases hpa : p a
    · rw [List.filter_cons_of_neg (by simp [hpa]),
        List.filter_cons_of_pos (by simp [hpa])]
      simp only [List.length_cons]
      omega
    · rw [List.filter_cons_of_pos hpa, List.filter_cons_of_neg (by simp [hpa])]
      simp only [List.length_cons]
      omega

theorem length_le_of_nodup_subset {l1 l2 : List Nat} (hnd : l1.Nodup)
    (hsub : ∀ x ∈ l1, x ∈ l2) : l1.length ≤ l2.length := by
  calc l1.length = l1.toFinset.card := (List.toFinset_card_of_nodup hnd).symm
    _ ≤ l2.toFinset.card := Finset.card_le_card (fun x hx =>
        List.mem_toFinset.mpr (hsub x (List.mem_toFinset.mp hx)))
    _ ≤ l2.length := List.toFinset_card_le l2

theorem applyEdits_batch_items (db : DB) (item : ReviewBatchItem)
    (decision : ReviewDecisionItem) :
    (applyEdits db item decision).batch_items = db.batch_items := by
  unfold applyEdits
  repeat' split
  all_goals rfl

theorem getBatchItem_applyEdits (db : DB) (item : ReviewBatchItem)
    (decision : ReviewDecisionItem) (k : Nat) :
    (applyEdits db item decision).getBatchItem k = db.getBatchItem k := by
  unfold DB.getBatchItem
  rw [applyEdits_batch_items]

theorem getBatchItem_set_ne (db : DB) (i k : Nat) (st : String) (h : k ≠ i) :
    (db.setBatchItemStatus i st).getBatchItem k = db.getBatchItem k := by
  rw [getBatchItem_setBatchItemStatus]
  cases hf : db.getBatchItem k with
  | none => rfl
  | some r =>
    have hf2 : db.batch_items.find? (fun it => it.id == k) = some r := hf
    have hid0 := List.find?_some hf2
    have hid : (r.id == k) = true := hid0
    have hne : (r.id == i) = false := by
      apply beq_eq_false_iff_ne.mpr
      intro he
      exact h (by rw [← (beq_iff_eq.mp hid), he])
    simp [hne]
    intro he
    exact absurd he (by simpa using hne)

theorem getBatchItem_set_same (db : DB) (i : Nat) (st : String) (r : ReviewBatchItem)
    (hf : db.getBatchItem i = some r) :
    (db.setBatchItemStatus i st).getBatchItem i = some { r with status := st } := by
  rw [getBatchItem_setBatchItemStatus, hf]
  have hf2 : db.batch_items.find? (fun it => it.id == i) = some r := hf
  have hid0 := List.find?_some hf2
  have hid : (r.id == i) = true := hid0
  simp [hid]
  intro he
  exact absurd (beq_iff_eq.mp hid) he

theorem decideStep_batchItem_self (decisions : List ReviewDecisionItem)
    (db : DB) (plan : ExecutionPlan) (item it : ReviewBatchItem)
    (hget : db.getBatchItem item.id = some it) :
    ((decideStep decisions (db, plan) item).1).getBatchItem item.id =
      some { it with status := decisionOutcome decisions item.id } := by
  unfold decideStep decisionOutcome
  dsimp only
  cases hfor : decisionFor decisions item.id with
  | none =>
    dsimp only
    exact getBatchItem_set_same db item.id "deferred" it hget
  | some d =>
    dsimp only
    have hged : (applyEdits db item d).getBatchItem item.id = some it := by
      rw [getBatchItem_applyEdits]
      exact hget
    by_cases ha : (strLower (strTrim d.decision) == "approve") = true
    · rw [if_pos ha, if_pos ha]
      show ((((applyEdits db item d).setBatchItemStatus item.id
          "approved").setAppDraftStatus item.application_draft_id
            "approved").setOutreachDraftStatus item.outreach_draft_id
              "approved").getBatchItem item.id = _
      have h1 := getBatchItem_set_same (applyEdits db item d) item.id "approved" it hged
      exact h1
    · rw [if_neg ha, if_neg ha]
      by_cases hr : (strLower (strTrim d.decision) == "reject") = true
      · rw [if_pos hr, if_pos hr]
        exact getBatchItem_set_same (applyEdits db item d) item.id "rejected" it hged
      · rw [if_neg hr, if_neg hr]
        exact getBatchItem_set_same (applyEdits db item d) item.id "deferred" it hged

theorem decideStep_batchItem_other (decisions : List ReviewDecisionItem)
    (db : DB) (plan : ExecutionPlan) (item : ReviewBatchItem) (k : Nat)
    (hk : k ≠ item.id) :
    ((decideStep decisions (db, plan) item).1).getBatchItem k = db.getBatchItem k := by
  unfold decideStep
  dsimp only
  cases hfor : decisionFor decisions item.id with
  | none =>
    dsimp only
    exact getBatchItem_set_ne db item.id k "deferred" hk
  | some d =>
    dsimp only
    have hged : (applyEdits db item d).getBatchItem k = db.getBatchItem k :=
      getBatchItem_applyEdits db item d k
    by_cases ha : (strLower (strTrim d.decision) == "approve") = true
    · rw [if_pos ha]
      show ((((applyEdits db item d).setBatchItemStatus item.id
          "approved").setAppDraftStatus item.application_draft_id
            "approved").setOutreachDraftStatus item.outreach_draft_id
              "approved").getBatchItem k = _
      rw [show ∀ (d2 : DB), (d2.setAppDraftStatus item.application_draft_id
          "approved").setOutreachDraftStatus item.outreach_draft_id "approved" =
          { d2 with
            app_drafts := (d2.setAppDraftStatus item.application_draft_id
              "approved").app_drafts,
            outreach_drafts := ((d2.setAppDraftStatus item.application_draft_id
              "approved").setOutreachDraftStatus item.outreach_draft_id
                "approved").outreach_drafts } from fun d2 => rfl]
      show ((applyEdits db item d).setBatchItemStatus item.id "approved").getBatchItem k = _
      rw [getBatchItem_set_ne _ item.id k "approved" hk, hged]
    · rw [if_neg ha]
      by_cases hr : (strLower (strTrim d.decision) == "reject") = true
      · rw [if_pos hr]
        show ((applyEdits db item d).setBatchItemStatus item.id "rejected").getBatchItem k = _
        rw [getBatchItem_set_ne _ item.id k "rejected" hk, hged]
      · rw [if_neg hr]
        show ((applyEdits db item d).setBatchItemStatus item.id "deferred").getBatchItem k = _
        rw [getBatchItem_set_ne _ item.id k "deferred" hk, hged]

theorem decideFold_keeps (decisions : List ReviewDecisionItem)
    (items : List ReviewBatchItem) :
    ∀ (db : DB) (plan : ExecutionPlan) (k : Nat), (∀ it ∈ items, it.id ≠ k) →
      ((items.foldl (decideStep decisions) (db, plan)).1).getBatchItem k =
        db.getBatchItem k := by
  induction items with
  | nil => intro db plan k _; rfl
  | cons item rest ih =>
    intro db plan k hk
    rw [List.foldl_cons]
    rcases hstep : decideStep decisions (db, plan) item with ⟨db1, plan1⟩
    have hother := decideStep_batchItem_other decisions db plan item k
      (fun he => hk item (by simp) he.symm)
    rw [hstep] at hother
    rw [ih db1 plan1 k (fun it hit => hk it (by simp [hit]))]
    exact hother

theorem decideFold_status (decisions : List ReviewDecisionItem)
    (items : List ReviewBatchItem) :
    ∀ (db : DB) (plan : ExecutionPlan),
      (∀ it ∈ items, db.getBatchItem it.id = some it) →
      ((items.map (fun it => it.id)).Nodup) →
      ∀ it ∈ items,
        ((items.foldl (decideStep decisions) (db, plan)).1).getBatchItem it.id =
          some { it with status := decisionOutcome decisions it.id } := by
  induction items with
  | nil => intro db plan _ _ it hit; cases hit
  | cons item rest ih =>
    intro db plan hget hnd it hit
    rw [List.map_cons] at hnd
    have hpair := List.nodup_cons.mp hnd
    rw [List.foldl_cons]
    rcases hstep : decideStep decisions (db, plan) item with ⟨db1, plan1⟩
    rcases List.mem_cons.mp hit with rfl | hmem
    · -- the head item: set by its own step, untouched by the rest
      have hself := decideStep_batchItem_self decisions db plan it it
        (hget it (by simp))
      rw [hstep] at hself
      rw [decideFold_keeps decisions rest db1 plan1 it.id
        (fun it2 hit2 he => hpair.1 (he ▸ List.mem_map_of_mem _ hit2))]
      exact hself
    · -- a later item: its record is unchanged by the head step
      have hkeep : ∀ it2 ∈ rest, db1.getBatchItem it2.id = some it2 := by
        intro it2 hit2
        have hother := decideStep_batchItem_other decisions db plan item it2.id
          (fun he => hpair.1 (he ▸ List.mem_map_of_mem _ hit2))
        rw [hstep] at hother
        rw [hother]
        exact hget it2 (by simp [hit2])
      exact ih db1 plan1 hkeep hpair.2 it hmem

theorem decideStep_deferred_count (decisions : List ReviewDecisionItem)
    (db : DB) (plan : ExecutionPlan) (item : ReviewBatchItem) :
    ((decideStep decisions (db, plan) item).2).deferred_count =
      plan.deferred_count +
        (if decisionOutcome decisions item.id == "deferred" then 1 else 0) := by
  unfold decideStep decisionOutcome
  dsimp only
  cases hfor : decisionFor decisions item.id with
  | none => simp
  | some d =>
    dsimp only
    by_cases ha : (strLower (strTrim d.decision) == "approve") = true
    · rw [if_pos ha, if_pos ha]
      simp
    · rw [if_neg ha, if_neg ha]
      by_cases hr : (strLower (strTrim d.decision) == "reject") = true
      · rw [if_pos hr, if_pos hr]
        simp
      · rw [if_neg hr, if_neg hr]
        simp

theorem decideFold_deferred (decisions : List ReviewDecisionItem)
    (items : List ReviewBatchItem) :
    ∀ (db : DB) (plan : ExecutionPlan),
      ((items.foldl (decideStep decisions) (db, plan)).2).deferred_count =
        plan.deferred_count +
          (items.filter
            (fun it => decisionOutcome decisions it.id == "deferred")).length := by
  induction items with
  | nil => intro db plan; simp
  | cons item rest ih =>
    intro db plan
    rw [List.foldl_cons]
    rcases hstep : decideStep decisions (db, plan) item with ⟨db1, plan1⟩
    have hcount := decideStep_deferred_count decisions db plan item
    rw [hstep] at hcount
    rw [ih db1 plan1, hcount]
    by_cases hdo : (decisionOutcome decisions item.id == "deferred") = true
    · rw [List.filter_cons_of_pos (by simpa using hdo), if_pos hdo]
      simp only [List.length_cons]
      omega
    · rw [List.filter_cons_of_neg (by simpa using hdo), if_neg hdo]
      omega

/-- C6: in apply_batch_decisions, every batch item with no matching decision
entry ends up "deferred" (a default, not an error); every decision string
other than "approve"/"reject" (after trim and lowercase) also defers; and
for a batch of N items with K supplied decisions the returned plan satisfies
deferred_count at least N - K (stated as N at most deferred_count + K). -/
theorem applyBatchDecisions_defaults (db : DB) (batch_id : Nat)
    (decisions : List ReviewDecisionItem) (batch : ReviewBatch)
    (hbatch : db.getBatch batch_id = some batch)
    (hopen : batch.status = "pending_review")
    (hnodup : (db.batch_items.map (fun it => it.id)).Nodup) :
    ∃ db4 plan, applyBatchDecisions db batch_id decisions = .ok (db4, plan) ∧
      (∀ it ∈ db.batch_items.filter (fun it => it.batch_id == batch_id),
        (decisionFor decisions it.id = none →
          db4.getBatchItem it.id = some { it with status := "deferred" }) ∧
        (∀ d, decisionFor decisions it.id = some d →
          strLower (strTrim d.decision) ≠ "approve" →
          strLower (strTrim d.decision) ≠ "reject" →
          db4.getBatchItem it.id = some { it with status := "deferred" })) ∧
      (db.batch_items.filter (fun it => it.batch_id == batch_id)).length ≤
        plan.deferred_count + decisions.length := by
  unfold applyBatchDecisions
  rw [hbatch]
  dsimp only
  rw [show (batch.status != "pending_review") = false by simp [hopen]]
  simp only [Bool.false_eq_true, if_false]
  set items := db.batch_items.filter (fun it => it.batch_id == batch_id) with hitems
  set db1 : DB := { db with plans := db.plans ++ [{ id := db.next_id, batch_id := batch_id }], next_id := db.next_id + 1 } with hdb1
  set plan0 : ExecutionPlan := { id := db.next_id, batch_id := batch_id } with hplan0
  refine ⟨_, _, rfl, ?_, ?_⟩
  · -- per-item statuses
    intro it hit
    have hnd1 : (items.map (fun it => it.id)).Nodup :=
      ((List.filter_sublist db.batch_items).map _).nodup hnodup
    have hget1 : ∀ it2 ∈ items, db1.getBatchItem it2.id = some it2 := by
      intro it2 hit2
      have hmem : it2 ∈ db.batch_items := (List.filter_sublist _).subset hit2
      have : db.batch_items.find? (fun x => x.id == it2.id) = some it2 :=
        find?_beq_id_of_nodup (fun x => x.id) db.batch_items it2 hnodup hmem
      exact this
    have hstat := decideFold_status decisions items db1 plan0 hget1 hnd1 it hit
    rcases hfold : items.foldl (decideStep decisions) (db1, plan0) with ⟨db2, plan⟩
    rw [hfold] at hstat
    constructor
    · intro hnone
      have hres : db2.getBatchItem it.id = some { it with status := "deferred" } := by
        rw [hstat]
        unfold decisionOutcome
        rw [hnone]
      exact hres
    · intro d hsome hna hnr
      have hres : db2.getBatchItem it.id = some { it with status := "deferred" } := by
        rw [hstat]
        unfold decisionOutcome
        rw [hsome]
        dsimp only
        rw [if_neg (by simpa using hna), if_neg (by simpa using hnr)]
      exact hres
  · -- the count bound
    rcases hfold : items.foldl (decideStep decisions) (db1, plan0) with ⟨db2, plan⟩
    have hdef := decideFold_deferred decisions items db1 plan0
    rw [hfold] at hdef
    dsimp only at hdef ⊢
    have hmono : (items.filter
        (fun it => (decisionFor decisions it.id).isNone)).length ≤
        (items.filter (fun it => decisionOutcome decisions it.id == "deferred")).length := by
      apply length_filter_mono
      intro it _ hp
      have hnone : decisionFor decisions it.id = none := by
        cases h : decisionFor decisions it.id
        · rfl
        · rw [h] at hp
          cases hp
      unfold decisionOutcome
      rw [hnone]
      rfl
    have hpart := length_filter_partition
      (fun it => (decisionFor decisions it.id).isNone) items
    have hsome_le : (items.filter
        (fun it => !(decisionFor decisions it.id).isNone)).length ≤ decisions.length := by
      have hnd1 : (items.map (fun it => it.id)).Nodup :=
        ((List.filter_sublist db.batch_items).map _).nodup hnodup
      have hnd2 : ((items.filter
          (fun it => !(decisionFor decisions it.id).isNone)).map
            (fun it => it.id)).Nodup :=
        ((List.filter_sublist items).map _).nodup hnd1
      have hsub : ∀ x ∈ (items.filter
          (fun it => !(decisionFor decisions it.id).isNone)).map (fun it => it.id),
          x ∈ decisions.map (fun d => d.batch_item_id) := by
        intro x hx
        rw [List.mem_map] at hx
        obtain ⟨it, hit, rfl⟩ := hx
        have hp := List.of_mem_filter hit
        have : ∃ d, decisionFor decisions it.id = some d := by
          cases h : decisionFor decisions it.id
          · rw [h] at hp
            cases hp
          · exact ⟨_, rfl⟩
        obtain ⟨d, hd⟩ := this
        have hdm : d ∈ decisions := by
          have := List.mem_of_find?_eq_some hd
          exact List.mem_reverse.mp this
        have hdid : (d.batch_item_id == it.id) = true := by
          have hd2 : decisions.reverse.find? (fun x => x.batch_item_id == it.id) =
            some d := hd
          have h0 := List.find?_some hd2
          exact h0
        rw [List.mem_map]
        exact ⟨d, hdm, beq_iff_eq.mp hdid⟩
      calc (items.filter (fun it => !(decisionFor decisions it.id).isNone)).length
          = ((items.filter
              (fun it => !(decisionFor decisions it.id).isNone)).map
                (fun it => it.id)).length := by rw [List.length_map]
        _ ≤ (decisions.map (fun d => d.batch_item_id)).length :=
            length_le_of_nodup_subset hnd2 hsub
        _ = decisions.length := List.length_map _ _
    have h0 : plan0.deferred_count = 0 := by rw [hplan0]
    omega

theorem applyBatchDecisions_defaults_witness :
    ∃ db4 plan, applyBatchDecisions demoDb 6 [] = .ok (db4, plan) ∧
      (∀ it ∈ demoDb.batch_items.filter (fun it => it.batch_id == 6),
        (decisionFor [] it.id = none →
          db4.getBatchItem it.id = some { it with status := "deferred" }) ∧
        (∀ d, decisionFor [] it.id = some d →
          strLower (strTrim d.decision) ≠ "approve" →
          strLower (strTrim d.decision) ≠ "reject" →
          db4.getBatchItem it.id = some { it with status := "deferred" })) ∧
      (demoDb.batch_items.filter (fun it => it.batch_id == 6)).length ≤
        plan.deferred_count + ([] : List ReviewDecisionItem).length :=
  applyBatchDecisions_defaults demoDb 6 [] demoBatch (by decide) rfl (by decide)

theorem length_insertByLe {α : Type} (le : α → α → Bool) (a : α) (l : List α) :
    (insertByLe le a l).length = l.length + 1 := by
  induction l with
  | nil => rfl
  | cons b bs ih =>
    unfold insertByLe
    by_cases h : le a b = true
    · rw [if_pos h]
      rfl
    · rw [if_neg h]
      simp only [List.length_cons, ih]

theorem mem_insertByLe {α : Type} (le : α → α → Bool) (a x : α) (l : List α) :
    x ∈ insertByLe le a l ↔ x = a ∨ x ∈ l := by
  induction l with
  | nil => simp [insertByLe]
  | cons b bs ih =>
    unfold insertByLe
    by_cases h : le a b = true
    · rw [if_pos h]
      simp [List.mem_cons]
    · rw [if_neg h]
      simp only [List.mem_cons, ih]
      tauto

theorem length_sortByLe {α : Type} (le : α → α → Bool) (l : List α) :
    (sortByLe le l).length = l.length := by
  induction l with
  | nil => rfl
  | cons a as ih =>
    unfold sortByLe
    rw [length_insertByLe, ih]
    rfl

theorem mem_sortByLe {α : Type} (le : α → α → Bool) (x : α) (l : List α) :
    x ∈ sortByLe le l ↔ x ∈ l := by
  induction l with
  | nil => exact Iff.rfl
  | cons a as ih =>
    unfold sortByLe
    rw [mem_insertByLe]
    simp [ih, List.mem_cons]

theorem strContains_applied_blocked : strContains "applied" "blocked" = false := by decide

theorem strContains_outreach_blocked :
    strContains "outreach_sent" "blocked" = false := by decide

theorem jobLike_id : jobLike id :=
  fun _ => ⟨rfl, rfl, Or.inl rfl⟩

theorem jobLike_set (i : Nat) (st : String)
    (hst : st = "applied" ∨ st = "outreach_sent") :
    jobLike (fun j => if j.id == i then { j with status := st } else j) := by
  intro j
  dsimp only
  by_cases h : (j.id == i) = true
  · rw [if_pos h]
    refine ⟨rfl, rfl, ?_⟩
    rcases hst with rfl | rfl
    · exact Or.inr (Or.inl rfl)
    · exact Or.inr (Or.inr rfl)
  · rw [if_neg h]
    exact ⟨rfl, rfl, Or.inl rfl⟩

theorem planItemLike_id : planItemLike id :=
  fun _ => ⟨rfl, rfl, rfl⟩

theorem planItemLike_set (i : Nat) (st : String) :
    planItemLike (fun it => if it.id == i then { it with status := st } else it) := by
  intro it
  dsimp only
  by_cases h : (it.id == i) = true
  · rw [if_pos h]
    exact ⟨rfl, rfl, rfl⟩
  · rw [if_neg h]
    exact ⟨rfl, rfl, rfl⟩

theorem planId_ite (i : Nat) (st : String) :
    ∀ p : ExecutionPlan, ((if p.id == i then { p with status := st } else p)).id = p.id := by
  intro p
  by_cases h : (p.id == i) = true
  · rw [if_pos h]
  · rw [if_neg h]

theorem DBShaped_refl (db : DB) : DBShaped db db :=
  ⟨rfl, ⟨id, jobLike_id, (List.map_id _).symm⟩,
    ⟨id, planItemLike_id, (List.map_id _).symm⟩,
    ⟨id, fun _ => rfl, (List.map_id _).symm⟩⟩

theorem DBShaped_trans {db1 db2 db3 : DB} (h12 : DBShaped db1 db2)
    (h23 : DBShaped db2 db3) : DBShaped db1 db3 := by
  obtain ⟨hb12, ⟨f1, hf1, hj12⟩, ⟨g1, hg1, hp12⟩, ⟨k1, hk1, hq12⟩⟩ := h12
  obtain ⟨hb23, ⟨f2, hf2, hj23⟩, ⟨g2, hg2, hp23⟩, ⟨k2, hk2, hq23⟩⟩ := h23
  refine ⟨hb23.trans hb12, ⟨fun j => f2 (f1 j), ?_, ?_⟩,
    ⟨fun it => g2 (g1 it), ?_, ?_⟩, ⟨fun p => k2 (k1 p), ?_, ?_⟩⟩
  · intro j
    obtain ⟨hi1, hc1, hs1⟩ := hf1 j
    obtain ⟨hi2, hc2, hs2⟩ := hf2 (f1 j)
    refine ⟨hi2.trans hi1, hc2.trans hc1, ?_⟩
    rcases hs2 with h | h | h
    · rw [h]
      exact hs1
    · exact Or.inr (Or.inl h)
    · exact Or.inr (Or.inr h)
  · rw [hj23, hj12, List.map_map]
    rfl
  · intro it
    obtain ⟨hi1, hp1, hb1⟩ := hg1 it
    obtain ⟨hi2, hp2, hb2⟩ := hg2 (g1 it)
    exact ⟨hi2.trans hi1, hp2.trans hp1, hb2.trans hb1⟩
  · rw [hp23, hp12, List.map_map]
    rfl
  · intro p
    exact (hk2 (k1 p)).trans (hk1 p)
  · rw [hq23, hq12, List.map_map]
    rfl

theorem getBatchItem_of_shaped {db db' : DB} (h : DBShaped db db') (k : Nat) :
    db'.getBatchItem k = db.getBatchItem k := by
  obtain ⟨hb, -, -, -⟩ := h
  unfold DB.getBatchItem
  rw [hb]

theorem getJob_of_shaped {db db' : DB} (h : DBShaped db db') (k : Nat) :
    ∃ f, jobLike f ∧ db'.getJob k = (db.getJob k).map f := by
  obtain ⟨-, ⟨f, hf, hj⟩, -, -⟩ := h
  refine ⟨f, hf, ?_⟩
  unfold DB.getJob
  rw [hj, List.find?_map]
  have hfun : ((fun j : JobRecord => j.id == k) ∘ f) = fun j : JobRecord => j.id == k := by
    funext j
    simp [(hf j).1]
  rw [hfun]

theorem goodJobs_of_shaped {db db' : DB} (h : DBShaped db db') (hg : goodJobs db) :
    goodJobs db' := by
  obtain ⟨-, ⟨f, hf, hj⟩, -, -⟩ := h
  intro j hj'
  rw [hj] at hj'
  obtain ⟨j0, hj0, rfl⟩ := List.mem_map.mp hj'
  obtain ⟨hid, hco, hst⟩ := hf j0
  constructor
  · rw [hco]
    exact (hg j0 hj0).1
  · rcases hst with h1 | h1 | h1
    · rw [h1]
      exact (hg j0 hj0).2
    · rw [h1]
      exact strContains_applied_blocked
    · rw [h1]
      exact strContains_outreach_blocked

theorem resolvableItem_of_shaped {db db' : DB} (h : DBShaped db db')
    {it : ExecutionPlanItem} (hr : resolvableItem db it) : resolvableItem db' it := by
  obtain ⟨bi, hbi, hjs⟩ := hr
  refine ⟨bi, ?_, ?_⟩
  · rw [getBatchItem_of_shaped h]
    exact hbi
  · obtain ⟨f, hf, hjeq⟩ := getJob_of_shaped h bi.job_id
    rw [hjeq]
    cases hdb : db.getJob bi.job_id
    · rw [hdb] at hjs
      simp at hjs
    · rfl

theorem resolvables_of_shaped {db db' : DB} (h : DBShaped db db') (pid : Nat)
    (hres : ∀ it ∈ db.plan_items.filter (fun it => it.plan_id == pid),
      resolvableItem db it) :
    ∀ it ∈ db'.plan_items.filter (fun it => it.plan_id == pid),
      resolvableItem db' it := by
  have hcopy := h
  obtain ⟨-, -, ⟨g, hg, hp⟩, -⟩ := hcopy
  intro it hit
  rw [hp] at hit
  rw [List.mem_filter] at hit
  obtain ⟨hmem, hpred⟩ := hit
  obtain ⟨it0, hit0, rfl⟩ := List.mem_map.mp hmem
  have h0 : it0 ∈ db.plan_items.filter (fun it => it.plan_id == pid) := by
    rw [List.mem_filter]
    refine ⟨hit0, ?_⟩
    rw [(hg it0).2.1] at hpred
    exact hpred
  obtain ⟨bi, hbi, hjs⟩ := resolvableItem_of_shaped h (hres it0 h0)
  refine ⟨bi, ?_, hjs⟩
  rw [(hg it0).2.2]
  exact hbi

theorem filter_planItems_of_shaped {db db' : DB} (h : DBShaped db db') (pid : Nat) :
    (db'.plan_items.filter (fun it => it.plan_id == pid)).length =
      (db.plan_items.filter (fun it => it.plan_id == pid)).length := by
  obtain ⟨-, -, ⟨g, hg, hp⟩, -⟩ := h
  rw [hp, List.filter_map]
  have hfun : ((fun it : ExecutionPlanItem => it.plan_id == pid) ∘ g) =
      fun it : ExecutionPlanItem => it.plan_id == pid := by
    funext it
    simp [(hg it).2.1]
  rw [hfun, List.length_map]

theorem executeItem_step (pid : Nat) (db : DB) (results : List ExecutionItemResult)
    (item : ExecutionPlanItem) (hgood : goodJobs db) (hres : resolvableItem db item) :
    ∃ db' r1, executeItem pid (db, results) item = (db', results ++ [r1]) ∧
      db'.events.length = db.events.length + 1 ∧ DBShaped db db' := by
  obtain ⟨bi, hbi, hjs⟩ := hres
  obtain ⟨job, hjob⟩ := Option.isSome_iff_exists.mp hjs
  have hjmem : job ∈ db.jobs := by
    have h2 : db.jobs.find? (fun j => j.id == bi.job_id) = some job := hjob
    exact List.mem_of_find?_eq_some h2
  obtain ⟨hc1, hc2⟩ := hgood job hjmem
  unfold executeItem
  dsimp only
  rw [hbi]
  dsimp only
  rw [hjob]
  dsimp only
  by_cases hcomp : (runComplianceChecks db bi.id item.action item.channel).1 = true
  · -- compliance passed: the first attempt succeeds under goodJobs
    rw [hcomp]
    simp only [Bool.not_true, Bool.false_eq_true, if_false]
    have ha : (attemptAction job 1).1 = true := by
      unfold attemptAction
      rw [hc1, hc2]
      rfl
    have hseq := attemptSeq_success_one pid item job db none 0 1 [2, 3] ha
    rw [hseq]
    dsimp only
    simp only [if_true]
    by_cases hact : (item.action == "submit_application") = true
    · rw [if_pos hact]
      refine ⟨_, _, rfl, ?_, ?_⟩
      · simp [DB.addEvent, DB.setPlanItemStatus, DB.setJobStatus]
      · exact ⟨rfl,
          ⟨fun j => if j.id == job.id then { j with status := "applied" } else j,
            jobLike_set job.id "applied" (Or.inl rfl), rfl⟩,
          ⟨fun it => if it.id == item.id then { it with status := "success" } else it,
            planItemLike_set item.id "success", rfl⟩,
          ⟨id, fun _ => rfl, (List.map_id _).symm⟩⟩
    · rw [if_neg hact]
      by_cases hjst : (job.status == "applied") = true
      · rw [if_pos hjst]
        refine ⟨_, _, rfl, ?_, ?_⟩
        · simp [DB.addEvent, DB.setPlanItemStatus, DB.setJobStatus]
        · exact ⟨rfl,
            ⟨fun j => if j.id == job.id then { j with status := "outreach_sent" } else j,
              jobLike_set job.id "outreach_sent" (Or.inr rfl), rfl⟩,
            ⟨fun it => if it.id == item.id then { it with status := "success" } else it,
              planItemLike_set item.id "success", rfl⟩,
            ⟨id, fun _ => rfl, (List.map_id _).symm⟩⟩
      · rw [if_neg hjst]
        refine ⟨_, _, rfl, ?_, ?_⟩
        · simp [DB.addEvent, DB.setPlanItemStatus]
        · exact ⟨rfl, ⟨id, jobLike_id, (List.map_id _).symm⟩,
            ⟨fun it => if it.id == item.id then { it with status := "success" } else it,
              planItemLike_set item.id "success", rfl⟩,
            ⟨id, fun _ => rfl, (List.map_id _).symm⟩⟩
  · -- compliance refused: the blocked branch still records exactly one event
    have hcompf : (runComplianceChecks db bi.id item.action item.channel).1 = false := by
      cases h : (runComplianceChecks db bi.id item.action item.channel).1
      · rfl
      · exact absurd h hcomp
    rw [hcompf]
    simp only [Bool.not_false, if_true]
    refine ⟨_, _, rfl, ?_, ?_⟩
    · simp [DB.addEvent, DB.setPlanItemStatus]
    · exact ⟨rfl, ⟨id, jobLike_id, (List.map_id _).symm⟩,
        ⟨fun it => if it.id == item.id then { it with status := "blocked" } else it,
          planItemLike_set item.id "blocked", rfl⟩,
        ⟨id, fun _ => rfl, (List.map_id _).symm⟩⟩

theorem execFold_step (pid : Nat) (items : List ExecutionPlanItem) :
    ∀ (db : DB) (results : List ExecutionItemResult), goodJobs db →
      (∀ it ∈ items, resolvableItem db it) →
      ∃ db' rs, items.foldl (executeItem pid) (db, results) = (db', results ++ rs) ∧
        rs.length = items.length ∧
        db'.events.length = db.events.length + items.length ∧
        DBShaped db db' := by
  induction items with
  | nil =>
    intro db results _ _
    exact ⟨db, [], by simp, rfl, rfl, DBShaped_refl db⟩
  | cons item rest ih =>
    intro db results hgood hres
    rw [List.foldl_cons]
    obtain ⟨db1, r1, hstep, hev1, hsh1⟩ :=
      executeItem_step pid db results item hgood (hres item (by simp))
    rw [hstep]
    obtain ⟨db2, rs2, hfold, hlen2, hev2, hsh2⟩ := ih db1 (results ++ [r1])
      (goodJobs_of_shaped hsh1 hgood)
      (fun it hit => resolvableItem_of_shaped hsh1 (hres it (by simp [hit])))
    refine ⟨db2, r1 :: rs2, ?_, ?_, ?_, DBShaped_trans hsh1 hsh2⟩
    · rw [hfold]
      simp
    · simp [hlen2]
    · rw [hev2, hev1]
      simp only [List.length_cons]
      omega

theorem executePlan_run (db : DB) (plan_id : Nat) (plan : ExecutionPlan)
    (hplan : db.getPlan plan_id = some plan) (hgood : goodJobs db)
    (hres : ∀ it ∈ db.plan_items.filter (fun it => it.plan_id == plan_id),
      resolvableItem db it) :
    ∃ db' res, executePlan db plan_id = .ok (db', res) ∧
      res.length = (db.plan_items.filter (fun it => it.plan_id == plan_id)).length ∧
      db'.events.length = db.events.length +
        (db.plan_items.filter (fun it => it.plan_id == plan_id)).length ∧
      DBShaped db db' := by
  unfold executePlan
  rw [hplan]
  dsimp only
  obtain ⟨db2, rs, hfold, hlen, hev, hsh⟩ := execFold_step plan.id
    (sortByLe (fun a b => decide (a.id ≤ b.id))
      (db.plan_items.filter (fun it => it.plan_id == plan_id))) db [] hgood
    (fun it hit => hres it ((mem_sortByLe _ it _).mp hit))
  refine ⟨_, _, rfl, ?_, ?_, ?_⟩
  · show ((sortByLe (fun a b => decide (a.id ≤ b.id))
        (db.plan_items.filter (fun it => it.plan_id == plan_id))).foldl
          (executeItem plan.id) (db, [])).2.length = _
    rw [hfold]
    dsimp only
    simp only [List.nil_append] at hlen ⊢
    rw [hlen, length_sortByLe]
  · show (((sortByLe (fun a b => decide (a.id ≤ b.id))
        (db.plan_items.filter (fun it => it.plan_id == plan_id))).foldl
          (executeItem plan.id) (db, [])).1).events.length = _
    rw [hfold]
    dsimp only
    rw [hev, length_sortByLe]
  · show DBShaped db ((((sortByLe (fun a b => decide (a.id ≤ b.id))
        (db.plan_items.filter (fun it => it.plan_id == plan_id))).foldl
          (executeItem plan.id) (db, [])).1.setPlanStatus plan.id
            "completed").logEvent "execution_plan" plan.id "executed")
    rw [hfold]
    dsimp only
    refine DBShaped_trans hsh ⟨rfl, ⟨id, jobLike_id, (List.map_id _).symm⟩,
      ⟨id, planItemLike_id, (List.map_id _).symm⟩,
      ⟨fun p => if p.id == plan.id then { p with status := "completed" } else p,
        planId_ite plan.id "completed", rfl⟩⟩

/-- C1: execute_plan is not idempotent and has no plan-level completion
guard: for every plan — in particular one whose status is already
"completed" — a run succeeds, re-processes every one of the plan's items
(one per-item result and one fresh ExecutionEvent per item, with no injected
failures), and marks the plan "completed"; a second run on the result
succeeds again and appends the same number of events, so starting from an
empty event log two runs double the event count. -/
theorem executePlan_not_idempotent (db : DB) (plan_id : Nat) (plan : ExecutionPlan)
    (hplan : db.getPlan plan_id = some plan) (hgood : goodJobs db)
    (hres : ∀ it ∈ db.plan_items.filter (fun it => it.plan_id == plan_id),
      resolvableItem db it) :
    ∃ db1 res1 db2 res2,
      executePlan db plan_id = .ok (db1, res1) ∧
      db1.getPlan plan_id = some { plan with status := "completed" } ∧
      executePlan db1 plan_id = .ok (db2, res2) ∧
      res1.length = (db.plan_items.filter (fun it => it.plan_id == plan_id)).length ∧
      res2.length = res1.length ∧
      db1.events.length = db.events.length +
        (db.plan_items.filter (fun it => it.plan_id == plan_id)).length ∧
      db2.events.length = db.events.length +
        2 * (db.plan_items.filter (fun it => it.plan_id == plan_id)).length ∧
      (db.events = [] → db2.events.length = 2 * db1.events.length) := by
  obtain ⟨db1, res1, hrun1, hlen1, hev1, hsh1⟩ :=
    executePlan_run db plan_id plan hplan hgood hres
  obtain ⟨db1', res1', hrun1', hcompl⟩ := executePlan_completes db plan_id plan hplan
  have heq : (Except.ok (db1', res1') : Except String (DB × List ExecutionItemResult)) =
      Except.ok (db1, res1) := by rw [← hrun1', hrun1]
  have heq2 : (db1', res1') = (db1, res1) := by
    injection heq
  have hd : db1' = db1 := congrArg Prod.fst heq2
  rw [hd] at hcompl
  have hgood1 : goodJobs db1 := goodJobs_of_shaped hsh1 hgood
  have hres1 : ∀ it ∈ db1.plan_items.filter (fun it => it.plan_id == plan_id),
      resolvableItem db1 it := resolvables_of_shaped hsh1 plan_id hres
  obtain ⟨db2, res2, hrun2, hlen2, hev2, hsh2⟩ :=
    executePlan_run db1 plan_id _ hcompl hgood1 hres1
  have hfl := filter_planItems_of_shaped hsh1 plan_id
  refine ⟨db1, res1, db2, res2, hrun1, hcompl, hrun2, hlen1, ?_, hev1, ?_, ?_⟩
  · rw [hlen2, hfl, hlen1]
  · rw [hev2, hfl, hev1]
    omega
  · intro h0
    rw [hev2, hfl, hev1, h0]
    simp only [List.length_nil]
    omega

theorem executePlan_not_idempotent_witness :
    ∃ db1 res1 db2 res2,
      executePlan demoDb 8 = .ok (db1, res1) ∧
      db1.getPlan 8 = some { demoPlanDone with status := "completed" } ∧
      executePlan db1 8 = .ok (db2, res2) ∧
      res1.length = (demoDb.plan_items.filter (fun it => it.plan_id == 8)).length ∧
      res2.length = res1.length ∧
      db1.events.length = demoDb.events.length +
        (demoDb.plan_items.filter (fun it => it.plan_id == 8)).length ∧
      db2.events.length = demoDb.events.length +
        2 * (demoDb.plan_items.filter (fun it => it.plan_id == 8)).length ∧
      (demoDb.events = [] → db2.events.length = 2 * db1.events.length) :=
  executePlan_not_idempotent demoDb 8 demoPlanDone (by decide)
    (by unfold goodJobs; decide)
    (by
      intro it hit
      have h2 : demoDb.plan_items.filter (fun it => it.plan_id == 8) =
          [demoItemApp, demoItemOut] := by decide
      rw [h2] at hit
      rcases List.mem_cons.mp hit with rfl | hit2
      · exact ⟨demoBatchItem, by decide, by decide⟩
      · rcases List.mem_cons.mp hit2 with rfl | hit3
        · exact ⟨demoBatchItem, by decide, by decide⟩
        · cases hit3)

theorem blockedPreserved_of_jobs_eq {db db' : DB} (hj : db'.jobs = db.jobs) :
    blockedPreserved db db' := by
  intro i hex
  obtain ⟨j, hm, hid, hst⟩ := hex
  refine ⟨j, ?_, hid, hst⟩
  rw [hj]
  exact hm

theorem blockedPreserved_append {db db' : DB} (tail : List JobRecord)
    (hj : db'.jobs = db.jobs ++ tail) : blockedPreserved db db' := by
  intro i hex
  obtain ⟨j, hm, hid, hst⟩ := hex
  refine ⟨j, ?_, hid, hst⟩
  rw [hj]
  exact List.mem_append_left tail hm

theorem blockedPreserved_trans {a b c : DB} (h1 : blockedPreserved a b)
    (h2 : blockedPreserved b c) : blockedPreserved a c :=
  fun i h => h2 i (h1 i h)

theorem eq_of_same_id_of_nodup {α : Type} (f : α → Nat) (l : List α) (a b : α)
    (hnd : (l.map f).Nodup) (ha : a ∈ l) (hb : b ∈ l) (hab : f a = f b) : a = b := by
  have h1 := find?_beq_id_of_nodup f l a hnd ha
  have h2 := find?_beq_id_of_nodup f l b hnd hb
  rw [hab] at h1
  rw [h1] at h2
  exact Option.some.inj h2

theorem draftJob_ok_chars (profile : CandidateProfile) (batch_id : Nat) (db : DB)
    (job : JobRecord) (db1 : DB) (h : draftJob profile batch_id db job = .ok db1) :
    (∃ item, db1.batch_items = db.batch_items ++ [item] ∧ item.job_id = job.id) ∧
    db1.jobs = db.jobs.map
      (fun j => if j.id == job.id then { j with status := "pending_review" } else j) := by
  unfold draftJob at h
  cases hv : chooseCvVariant db profile.version job with
  | error e =>
    rw [hv] at h
    exact Except.noConfusion h
  | ok cv =>
    rw [hv] at h
    dsimp only at h
    have hdb1 := (Except.ok.inj h).symm
    subst hdb1
    exact ⟨⟨_, rfl, rfl⟩, rfl⟩

theorem draftFold_error (profile : CandidateProfile) (batch_id : Nat)
    (jobs : List JobRecord) (e : String) :
    jobs.foldl (fun acc job => match acc with
      | .error e2 => .error e2
      | .ok d => draftJob profile batch_id d job) (Except.error e) = .error e := by
  induction jobs with
  | nil => rfl
  | cons j js ih =>
    rw [List.foldl_cons]
    exact ih

theorem draftFold_chars (profile : CandidateProfile) (batch_id : Nat)
    (jobs : List JobRecord) :
    ∀ (db db2 : DB),
      jobs.foldl (fun acc job => match acc with
        | .error e => .error e
        | .ok d => draftJob profile batch_id d job) (Except.ok db) = .ok db2 →
      (∃ newItems, db2.batch_items = db.batch_items ++ newItems ∧
        ∀ it ∈ newItems, ∃ j ∈ jobs, it.job_id = j.id) ∧
      (∀ j ∈ db.jobs, (∀ j0 ∈ jobs, (j.id == j0.id) = false) → j ∈ db2.jobs) := by
  induction jobs with
  | nil =>
    intro db db2 h
    have hdb := Except.ok.inj h
    subst hdb
    exact ⟨⟨[], by simp, fun it hit => absurd hit (List.not_mem_nil it)⟩,
      fun j hj _ => hj⟩
  | cons job rest ih =>
    intro db db2 h
    rw [List.foldl_cons] at h
    dsimp only at h
    cases hdj : draftJob profile batch_id db job with
    | error e =>
      rw [hdj, draftFold_error] at h
      exact Except.noConfusion h
    | ok db1 =>
      rw [hdj] at h
      obtain ⟨⟨item, hbi, hjid⟩, hjobs⟩ := draftJob_ok_chars profile batch_id db job db1 hdj
      obtain ⟨⟨newRest, hbi2, hmem2⟩, hsurv2⟩ := ih db1 db2 h
      constructor
      · refine ⟨item :: newRest, ?_, ?_⟩
        · rw [hbi2, hbi]
          simp
        · intro it hit
          rcases List.mem_cons.mp hit with rfl | hit2
          · exact ⟨job, by simp, hjid⟩
          · obtain ⟨j, hj, hje⟩ := hmem2 it hit2
            exact ⟨j, by simp [hj], hje⟩
      · intro j hj hids
        have hhead : (j.id == job.id) = false := hids job (by simp)
        have hj1 : j ∈ db1.jobs := by
          rw [hjobs]
          have hmm := List.mem_map_of_mem
            (fun j => if j.id == job.id then { j with status := "pending_review" } else j) hj
          simpa [hhead] using hmm
        exact hsurv2 j hj1 (fun j0 hj0 => hids j0 (by simp [hj0]))

theorem gen_ok_chars (db db' : DB) (ob : Option ReviewBatch)
    (h : generateDraftsAndBatch db = .ok (db', ob)) :
    (∃ newItems, db'.batch_items = db.batch_items ++ newItems ∧
      ∀ it ∈ newItems, ∃ j ∈ db.jobs, it.job_id = j.id ∧ j.status = "new") ∧
    (∀ j ∈ db.jobs, (∀ j0 ∈ db.jobs, j0.status = "new" → (j.id == j0.id) = false) →
      j ∈ db'.jobs) := by
  unfold generateDraftsAndBatch at h
  cases hap : activeProfile db with
  | none =>
    rw [hap] at h
    have h2 := Except.ok.inj h
    have hd : db = db' := congrArg Prod.fst h2
    subst hd
    exact ⟨⟨[], by simp, fun it hit => absurd hit (List.not_mem_nil it)⟩,
      fun j hj _ => hj⟩
  | some profile =>
    rw [hap] at h
    dsimp only at h
    cases hjle : sortByLe
        (fun a b => decide (b.relevance_score < a.relevance_score) ||
          (a.relevance_score == b.relevance_score && decide (a.id ≤ b.id)))
        (db.jobs.filter (fun j => j.status == "new")) with
    | nil =>
      rw [hjle] at h
      have h2 := Except.ok.inj h
      have hd : db = db' := congrArg Prod.fst h2
      subst hd
      exact ⟨⟨[], by simp, fun it hit => absurd hit (List.not_mem_nil it)⟩,
        fun j hj _ => hj⟩
    | cons j0 js =>
      rw [hjle] at h
      dsimp only at h
      cases hfold : (j0 :: js).foldl (fun acc job => match acc with
          | .error e => .error e
          | .ok d => draftJob profile db.next_id d job)
          (Except.ok { db with batches := db.batches ++ [{ id := db.next_id }],
                               next_id := db.next_id + 1 }) with
      | error e =>
        rw [hfold] at h
        exact Except.noConfusion h
      | ok dbF =>
        rw [hfold] at h
        dsimp only at h
        have h2 := Except.ok.inj h
        have hd := congrArg Prod.fst h2
        dsimp only at hd
        obtain ⟨⟨newItems, hbi, hmem⟩, hsurv⟩ := draftFold_chars profile db.next_id
          (j0 :: js) _ dbF hfold
        have hjmem : ∀ jj ∈ j0 :: js, jj ∈ db.jobs ∧ jj.status = "new" := by
          intro jj hjj
          rw [← hjle] at hjj
          have hjj2 := (mem_sortByLe _ jj _).mp hjj
          have hjj3 := List.mem_filter.mp hjj2
          exact ⟨hjj3.1, by simpa using hjj3.2⟩
        constructor
        · refine ⟨newItems, ?_, ?_⟩
          · rw [← hd]
            exact hbi
          · intro it hit
            obtain ⟨jj, hjj, hje⟩ := hmem it hit
            obtain ⟨hm, hst⟩ := hjmem jj hjj
            exact ⟨jj, hm, hje, hst⟩
        · intro j hj hids
          rw [← hd]
          refine hsurv j hj ?_
          intro jj hjj
          obtain ⟨hm, hst⟩ := hjmem jj hjj
          exact hids jj hm hst

theorem discoverStep_jobs_append (profile : Option CandidateProfile)
    (policy : Option TargetingPolicy) (cfg : ProfileConfig) (db : DB) (d : Nat)
    (raw : SourceJob) :
    ∃ tail, ((discoverStep profile policy cfg (db, d) raw).1).jobs = db.jobs ++ tail := by
  unfold discoverStep
  dsimp only
  by_cases hdup : ((db.jobs.find? (fun j => j.fingerprint ==
      fingerprintOf raw.company raw.title raw.location raw.apply_url)).isSome) = true
  · rw [if_pos hdup]
    exact ⟨[], by simp⟩
  · rw [if_neg hdup]
    exact ⟨_, rfl⟩

theorem discoverFold_jobs_append (profile : Option CandidateProfile)
    (policy : Option TargetingPolicy) (cfg : ProfileConfig) (raws : List SourceJob) :
    ∀ (db : DB) (d : Nat), ∃ tail,
      (((raws.foldl (discoverStep profile policy cfg) (db, d))).1).jobs =
        db.jobs ++ tail := by
  induction raws with
  | nil =>
    intro db d
    exact ⟨[], by simp⟩
  | cons raw rest ih =>
    intro db d
    rw [List.foldl_cons]
    rcases hstep : discoverStep profile policy cfg (db, d) raw with ⟨db1, d1⟩
    obtain ⟨t1, ht1⟩ := discoverStep_jobs_append profile policy cfg db d raw
    rw [hstep] at ht1
    have ht1' : db1.jobs = db.jobs ++ t1 := ht1
    obtain ⟨t2, ht2⟩ := ih db1 d1
    refine ⟨t1 ++ t2, ?_⟩
    rw [ht2, ht1', List.append_assoc]

set_option maxHeartbeats 1600000 in
theorem runDiscovery_jobs (db : DB) (cfg : ProfileConfig) (scid : String) :
    ∃ tail, ((runDiscovery db cfg scid).1).jobs = db.jobs ++ tail := by
  unfold runDiscovery
  dsimp only
  obtain ⟨tail, ht⟩ := discoverFold_jobs_append (activeProfile db)
    (match activeProfile db with
     | none => none
     | some p => activePolicy db p.version) cfg (mockSourceJobs scid)
    { db with discovery_runs := db.discovery_runs ++ [{ id := db.next_id, source_config_id := scid, discovered_count := 0, deduped_count := 0 }], next_id := db.next_id + 1 } 0
  exact ⟨tail, ht⟩

theorem followFold_jobs (now : Nat) (events : List ExecutionEvent) :
    ∀ (db : DB) (c : Nat),
      ((events.foldl (fun (st : DB × Nat) event =>
        let (db, created) := st
        let due_at := now + followUpOffset
        match db.getPlanItem event.plan_item_id with
        | none => (db, created)
        | some plan_item =>
          match db.getBatchItem plan_item.batch_item_id with
          | none => (db, created)
          | some batch_item =>
            match db.getOutreachDraft batch_item.outreach_draft_id with
            | none => (db, created)
            | some outreach =>
              if (db.followups.find? (fun t => t.job_id == event.job_id &&
                  t.outreach_draft_id == outreach.id && t.status == "pending")).isSome then
                (db, created)
              else
                ({ db with followups := db.followups ++
                    [{ job_id := event.job_id, outreach_draft_id := outreach.id,
                       due_at := due_at, channel := event.channel }] },
                 created + 1)) (db, c)).1).jobs = db.jobs := by
  induction events with
  | nil =>
    intro db c
    rfl
  | cons ev rest ih =>
    intro db c
    rw [List.foldl_cons]
    dsimp only
    cases hpi : db.getPlanItem ev.plan_item_id with
    | none => exact ih db c
    | some pi =>
      dsimp only
      cases hbi2 : db.getBatchItem pi.batch_item_id with
      | none => exact ih db c
      | some bi =>
        dsimp only
        cases hod : db.getOutreachDraft bi.outreach_draft_id with
        | none => exact ih db c
        | some od =>
          dsimp only
          by_cases hf : ((db.followups.find? (fun t => t.job_id == ev.job_id &&
              t.outreach_draft_id == od.id && t.status == "pending")).isSome) = true
          · rw [if_pos hf]
            exact ih db c
          · rw [if_neg hf]
            exact ih _ _

theorem scheduleFollowups_jobs (db : DB) (now : Nat) (plan_id : Nat) :
    ((scheduleFollowupsForPlan db now plan_id).1).jobs = db.jobs := by
  unfold scheduleFollowupsForPlan
  dsimp only
  exact followFold_jobs now _ db 0

theorem applyEdits_jobs (db : DB) (item : ReviewBatchItem)
    (decision : ReviewDecisionItem) : (applyEdits db item decision).jobs = db.jobs := by
  unfold applyEdits
  dsimp only
  cases decision.edits.cover_letter <;> cases decision.edits.cv_patch <;>
    cases decision.edits.connection_note <;> cases decision.edits.email_variant <;> rfl

theorem decideStep_jobs (decisions : List ReviewDecisionItem) (db : DB)
    (plan : ExecutionPlan) (item : ReviewBatchItem) :
    ((decideStep decisions (db, plan) item).1).jobs = db.jobs := by
  unfold decideStep
  dsimp only
  cases hdf : decisionFor decisions item.id with
  | none => rfl
  | some d =>
    dsimp only
    by_cases ha : (strLower (strTrim d.decision) == "approve") = true
    · rw [if_pos ha]
      exact applyEdits_jobs db item d
    · rw [if_neg ha]
      by_cases hr : (strLower (strTrim d.decision) == "reject") = true
      · rw [if_pos hr]
        exact applyEdits_jobs db item d
      · rw [if_neg hr]
        exact applyEdits_jobs db item d

theorem decideFold_jobs (decisions : List ReviewDecisionItem)
    (items : List ReviewBatchItem) :
    ∀ (db : DB) (plan : ExecutionPlan),
      (((items.foldl (decideStep decisions) (db, plan))).1).jobs = db.jobs := by
  induction items with
  | nil =>
    intro db plan
    rfl
  | cons item rest ih =>
    intro db plan
    rw [List.foldl_cons]
    rcases hstep : decideStep decisions (db, plan) item with ⟨db1, plan1⟩
    have hj := decideStep_jobs decisions db plan item
    rw [hstep] at hj
    have hj' : db1.jobs = db.jobs := hj
    rw [ih db1 plan1, hj']

theorem applyBatchDecisions_jobs (db : DB) (batch_id : Nat)
    (decisions : List ReviewDecisionItem) (db' : DB) (plan : ExecutionPlan)
    (h : applyBatchDecisions db batch_id decisions = .ok (db', plan)) :
    db'.jobs = db.jobs := by
  unfold applyBatchDecisions at h
  cases hb : db.getBatch batch_id with
  | none =>
    rw [hb] at h
    exact Except.noConfusion h
  | some batch =>
    rw [hb] at h
    dsimp only at h
    by_cases hop : (batch.status != "pending_review") = true
    · rw [if_pos hop] at h
      exact Except.noConfusion h
    · rw [if_neg hop] at h
      have h2 := Except.ok.inj h
      have hd := congrArg Prod.fst h2
      dsimp only at hd
      rw [← hd]
      exact decideFold_jobs decisions _ _ _

theorem attemptAction_fst_false_of_blocked (job : JobRecord) (a : Nat)
    (h : strContains job.status "blocked" = true) : (attemptAction job a).1 = false := by
  unfold attemptAction
  by_cases h1 : (strContains (strLower job.company) "transient" &&
      decide (a < MAX_ATTEMPTS)) = true
  · rw [if_pos h1]
  · rw [if_neg h1, if_pos h]

theorem attemptAction_not_blocked_of_success (job : JobRecord) (a : Nat)
    (h : (attemptAction job a).1 = true) : strContains job.status "blocked" = false := by
  cases hb : strContains job.status "blocked"
  · rfl
  · rw [attemptAction_fst_false_of_blocked job a hb] at h
    exact Bool.noConfusion h

theorem attemptSeq_success_mem (pid : Nat) (item : ExecutionPlanItem)
    (job : JobRecord) :
    ∀ (l : List Nat) (db : DB) (e : Option String) (p : Nat),
      (attemptSeq pid item job db e p l).2.1 = true →
      ∃ a ∈ l, (attemptAction job a).1 = true := by
  intro l
  induction l with
  | nil =>
    intro db e p h
    unfold attemptSeq at h
    dsimp only at h
    exact Bool.noConfusion h
  | cons a rest ih =>
    intro db e p h
    unfold attemptSeq at h
    dsimp only at h
    by_cases ha : (attemptAction job a).1 = true
    · exact ⟨a, by simp, ha⟩
    · rw [if_neg ha] at h
      obtain ⟨b, hb, hab⟩ := ih _ _ _ h
      exact ⟨b, by simp [hb], hab⟩

theorem blockedPreserved_setJob (db db2 : DB) (job : JobRecord) (st' : String)
    (hnd : (db.jobs.map (fun j => j.id)).Nodup)
    (hjmem : job ∈ db.jobs) (hnb : job.status ≠ "blocked")
    (hjobs : db2.jobs = db.jobs.map
      (fun j => if j.id == job.id then { j with status := st' } else j)) :
    blockedPreserved db db2 ∧
    db2.jobs.map (fun j => j.id) = db.jobs.map (fun j => j.id) := by
  constructor
  · intro i hex
    obtain ⟨j, hjm, hid, hst⟩ := hex
    have hne : (j.id == job.id) = false := by
      cases hq : (j.id == job.id)
      · rfl
      · exfalso
        have he : j = job := eq_of_same_id_of_nodup (fun j => j.id) db.jobs j job
          hnd hjm hjmem (beq_iff_eq.mp hq)
        rw [he] at hst
        exact hnb hst
    refine ⟨j, ?_, hid, hst⟩
    rw [hjobs]
    have hmm := List.mem_map_of_mem
      (fun j => if j.id == job.id then { j with status := st' } else j) hjm
    simpa [hne] using hmm
  · rw [hjobs, List.map_map]
    have hfun : ((fun j : JobRecord => j.id) ∘
        fun j => if j.id == job.id then { j with status := st' } else j) =
        fun j : JobRecord => j.id := by
      funext j
      simp only [Function.comp_apply]
      by_cases hq : (j.id == job.id) = true
      · rw [if_pos hq]
      · rw [if_neg hq]
    rw [hfun]

theorem executeItem_blocked_step (pid : Nat) (db : DB)
    (results : List ExecutionItemResult) (item : ExecutionPlanItem)
    (hnd : (db.jobs.map (fun j => j.id)).Nodup) :
    blockedPreserved db ((executeItem pid (db, results) item).1) ∧
    (((executeItem pid (db, results) item).1)).jobs.map (fun j => j.id) =
      db.jobs.map (fun j => j.id) := by
  unfold executeItem
  dsimp only
  cases hbi : db.getBatchItem item.batch_item_id with
  | none => exact ⟨blockedPreserved_of_jobs_eq rfl, rfl⟩
  | some bi =>
    dsimp only
    cases hjob : db.getJob bi.job_id with
    | none => exact ⟨blockedPreserved_of_jobs_eq rfl, rfl⟩
    | some job =>
      dsimp only
      by_cases hcomp : (runComplianceChecks db bi.id item.action item.channel).1 = true
      · rw [hcomp]
        simp only [Bool.not_true, Bool.false_eq_true, if_false]
        obtain ⟨evs, hevs⟩ := attemptSeq_db pid item job [1, 2, 3] db none 0
        rcases hseq : attemptSeq pid item job db none 0 [1, 2, 3] with ⟨dbr, succ, att, msg⟩
        rw [hseq] at hevs
        have hdbr : dbr = { db with events := db.events ++ evs } := hevs
        dsimp only
        cases succ with
        | false =>
          simp only [Bool.false_eq_true, if_false]
          have hje : (((dbr.setPlanItemStatus item.id "failed").addEvent
              { plan_id := pid, plan_item_id := item.id, job_id := job.id,
                event_type := eventTypeOf item.action, channel := item.channel,
                status := "failed", attempt := att, error_message := msg })).jobs =
              db.jobs := by
            show dbr.jobs = db.jobs
            rw [hdbr]
          exact ⟨blockedPreserved_of_jobs_eq hje, by rw [hje]⟩
        | true =>
          simp only [if_true]
          have hsuccseq : (attemptSeq pid item job db none 0 [1, 2, 3]).2.1 = true := by
            rw [hseq]
          obtain ⟨a, _ha, hact⟩ := attemptSeq_success_mem pid item job [1, 2, 3] db
            none 0 hsuccseq
          have hnb0 : strContains job.status "blocked" = false :=
            attemptAction_not_blocked_of_success job a hact
          have hnb : job.status ≠ "blocked" := by
            intro he
            rw [he] at hnb0
            have : strContains "blocked" "blocked" = true := by decide
            rw [this] at hnb0
            exact Bool.noConfusion hnb0
          have hjmem : job ∈ db.jobs := by
            have h2 : db.jobs.find? (fun j => j.id == bi.job_id) = some job := hjob
            exact List.mem_of_find?_eq_some h2
          by_cases hact2 : (item.action == "submit_application") = true
          · rw [if_pos hact2]
            refine blockedPreserved_setJob db _ job "applied" hnd hjmem hnb ?_
            show (dbr.jobs.map _) = _
            rw [hdbr]
          · rw [if_neg hact2]
            by_cases hjst : (job.status == "applied") = true
            · rw [if_pos hjst]
              refine blockedPreserved_setJob db _ job "outreach_sent" hnd hjmem hnb ?_
              show (dbr.jobs.map _) = _
              rw [hdbr]
            · rw [if_neg hjst]
              have hje : (((dbr.setPlanItemStatus item.id "success").addEvent
                  { plan_id := pid, plan_item_id := item.id, job_id := job.id,
                    event_type := eventTypeOf item.action, channel := item.channel,
                    status := "success", attempt := att, error_message := none })).jobs =
                  db.jobs := by
                show dbr.jobs = db.jobs
                rw [hdbr]
              exact ⟨blockedPreserved_of_jobs_eq hje, by rw [hje]⟩
      · have hcompf : (runComplianceChecks db bi.id item.action item.channel).1 = false := by
          cases hc : (runComplianceChecks db bi.id item.action item.channel).1
          · rfl
          · exact absurd hc hcomp
        rw [hcompf]
        simp only [Bool.not_false, if_true]
        exact ⟨blockedPreserved_of_jobs_eq rfl, rfl⟩

theorem execFold_blocked (pid : Nat) (items : List ExecutionPlanItem) :
    ∀ (db : DB) (results : List ExecutionItemResult),
      (db.jobs.map (fun j => j.id)).Nodup →
      blockedPreserved db ((items.foldl (executeItem pid) (db, results)).1) ∧
      ((items.foldl (executeItem pid) (db, results)).1).jobs.map (fun j => j.id) =
        db.jobs.map (fun j => j.id) := by
  induction items with
  | nil =>
    intro db results _
    exact ⟨blockedPreserved_of_jobs_eq rfl, rfl⟩
  | cons item rest ih =>
    intro db results hnd
    rw [List.foldl_cons]
    rcases hstep : executeItem pid (db, results) item with ⟨db1, results1⟩
    obtain ⟨hbp1, hids1⟩ := executeItem_blocked_step pid db results item hnd
    rw [hstep] at hbp1 hids1
    have hids1' : db1.jobs.map (fun j => j.id) = db.jobs.map (fun j => j.id) := hids1
    have hnd1 : (db1.jobs.map (fun j => j.id)).Nodup := by
      rw [hids1']
      exact hnd
    obtain ⟨hbp2, hids2⟩ := ih db1 results1 hnd1
    exact ⟨blockedPreserved_trans hbp1 hbp2, hids2.trans hids1'⟩

theorem executePlan_blocked_preserved {db : DB} {plan_id : Nat} {db' : DB}
    {res : List ExecutionItemResult}
    (hok : executePlan db plan_id = .ok (db', res))
    (hnd : (db.jobs.map (fun j => j.id)).Nodup) : blockedPreserved db db' := by
  unfold executePlan at hok
  cases hp : db.getPlan plan_id with
  | none =>
    rw [hp] at hok
    exact Except.noConfusion hok
  | some plan =>
    rw [hp] at hok
    dsimp only at hok
    have h2 := Except.ok.inj hok
    have hd := congrArg Prod.fst h2
    dsimp only at hd
    obtain ⟨hbp, -⟩ := execFold_blocked plan.id
      (sortByLe (fun a b => decide (a.id ≤ b.id))
        (db.plan_items.filter (fun it => it.plan_id == plan_id))) db [] hnd
    rw [← hd]
    exact blockedPreserved_trans hbp (blockedPreserved_of_jobs_eq rfl)

theorem approve_blocked_preserved {db : DB} {bid : Nat} {db' : DB}
    {res : List ExecutionItemResult}
    (hok : approveAndExecuteBatchItem db bid = .ok (db', res))
    (hnd : (db.jobs.map (fun j => j.id)).Nodup) : blockedPreserved db db' := by
  unfold approveAndExecuteBatchItem at hok
  cases hbi : db.getBatchItem bid with
  | none =>
    rw [hbi] at hok
    exact Except.noConfusion hok
  | some item =>
    rw [hbi] at hok
    dsimp only at hok
    cases had : db.getAppDraft item.application_draft_id with
    | none =>
      rw [had] at hok
      exact Except.noConfusion hok
    | some ad =>
      rw [had] at hok
      cases hod : db.getOutreachDraft item.outreach_draft_id with
      | none =>
        rw [hod] at hok
        exact Except.noConfusion hok
      | some od =>
        rw [hod] at hok
        dsimp only at hok
        by_cases hguard : ((db.events.find? (fun e => e.job_id == item.job_id &&
            e.status == "success")).isSome) = true
        · rw [if_pos hguard] at hok
          exact Except.noConfusion hok
        · rw [if_neg hguard] at hok
          have hmid := executePlan_blocked_preserved hok hnd
          exact blockedPreserved_trans (blockedPreserved_of_jobs_eq rfl) hmid

/-- C8: blocked jobs never reach a review batch.  At discovery, a raw job
that should_block_job rejects (and that is not deduplicated away) is stored
with status "blocked" and relevance score 0; generate_drafts_and_batch adds
review-batch items only for jobs whose stored status is "new"; and none of
the pipeline's mutating operations — discovery, drafting, batch decisions,
plan execution, follow-up scheduling, or the approve-and-execute shortcut —
ever removes a blocked job or changes its "blocked" status (the execution
connector always fails on a blocked job, so its success side effect never
fires). -/
theorem blockedJobs_stay_blocked (db : DB)
    (hnd : (db.jobs.map (fun j => j.id)).Nodup) :
    (∀ (profile : Option CandidateProfile) (policy : Option TargetingPolicy)
        (cfg : ProfileConfig) (deduped : Nat) (raw : SourceJob),
      (db.jobs.find? (fun j => j.fingerprint ==
        fingerprintOf raw.company raw.title raw.location raw.apply_url)).isSome = false →
      shouldBlockJob (mkJobRecord db.next_id raw
        (fingerprintOf raw.company raw.title raw.location raw.apply_url)) policy = true →
      ∃ j, ((discoverStep profile policy cfg (db, deduped) raw).1).jobs =
          db.jobs ++ [j] ∧ j.status = "blocked" ∧ j.relevance_score = 0) ∧
    (∀ db' ob, generateDraftsAndBatch db = .ok (db', ob) →
      (∃ newItems, db'.batch_items = db.batch_items ++ newItems ∧
        ∀ it ∈ newItems, ∃ j ∈ db.jobs, it.job_id = j.id ∧ j.status = "new") ∧
      blockedPreserved db db') ∧
    (∀ cfg scid, blockedPreserved db ((runDiscovery db cfg scid).1)) ∧
    (∀ batch_id decisions db' plan,
      applyBatchDecisions db batch_id decisions = .ok (db', plan) →
      blockedPreserved db db') ∧
    (∀ plan_id db' res, executePlan db plan_id = .ok (db', res) →
      blockedPreserved db db') ∧
    (∀ now plan_id, blockedPreserved db ((scheduleFollowupsForPlan db now plan_id).1)) ∧
    (∀ bid db' res, approveAndExecuteBatchItem db bid = .ok (db', res) →
      blockedPreserved db db') := by
  refine ⟨?_, ?_, ?_, ?_, ?_, ?_, ?_⟩
  · intro profile policy cfg deduped raw hdup hblk
    unfold discoverStep
    dsimp only
    rw [hdup]
    simp only [Bool.false_eq_true, if_false]
    rw [hblk]
    simp only [if_true]
    exact ⟨_, rfl, rfl, rfl⟩
  · intro db' ob hok
    obtain ⟨hnew, hsurv⟩ := gen_ok_chars db db' ob hok
    refine ⟨hnew, ?_⟩
    intro i hex
    obtain ⟨j, hjm, hid, hst⟩ := hex
    have hids : ∀ j0 ∈ db.jobs, j0.status = "new" → (j.id == j0.id) = false := by
      intro j0 hj0 hst0
      cases hq : (j.id == j0.id)
      · rfl
      · exfalso
        have he : j = j0 := eq_of_same_id_of_nodup (fun j => j.id) db.jobs j j0
          hnd hjm hj0 (beq_iff_eq.mp hq)
        rw [he, hst0] at hst
        exact absurd hst (by decide)
    exact ⟨j, hsurv j hjm hids, hid, hst⟩
  · intro cfg scid
    obtain ⟨tail, ht⟩ := runDiscovery_jobs db cfg scid
    exact blockedPreserved_append tail ht
  · intro batch_id decisions db' plan hok
    exact blockedPreserved_of_jobs_eq
      (applyBatchDecisions_jobs db batch_id decisions db' plan hok)
  · intro plan_id db' res hok
    exact executePlan_blocked_preserved hok hnd
  · intro now plan_id
    exact blockedPreserved_of_jobs_eq (scheduleFollowups_jobs db now plan_id)
  · intro bid db' res hok
    exact approve_blocked_preserved hok hnd

theorem blockedJobs_stay_blocked_witness :
    (∀ (profile : Option CandidateProfile) (policy : Option TargetingPolicy)
        (cfg : ProfileConfig) (deduped : Nat) (raw : SourceJob),
      (demoDbBlocked.jobs.find? (fun j => j.fingerprint ==
        fingerprintOf raw.company raw.title raw.location raw.apply_url)).isSome = false →
      shouldBlockJob (mkJobRecord demoDbBlocked.next_id raw
        (fingerprintOf raw.company raw.title raw.location raw.apply_url)) policy = true →
      ∃ j, ((discoverStep profile policy cfg (demoDbBlocked, deduped) raw).1).jobs =
          demoDbBlocked.jobs ++ [j] ∧ j.status = "blocked" ∧ j.relevance_score = 0) ∧
    (∀ db' ob, generateDraftsAndBatch demoDbBlocked = .ok (db', ob) →
      (∃ newItems, db'.batch_items = demoDbBlocked.batch_items ++ newItems ∧
        ∀ it ∈ newItems, ∃ j ∈ demoDbBlocked.jobs, it.job_id = j.id ∧ j.status = "new") ∧
      blockedPreserved demoDbBlocked db') ∧
    (∀ cfg scid, blockedPreserved demoDbBlocked ((runDiscovery demoDbBlocked cfg scid).1)) ∧
    (∀ batch_id decisions db' plan,
      applyBatchDecisions demoDbBlocked batch_id decisions = .ok (db', plan) →
      blockedPreserved demoDbBlocked db') ∧
    (∀ plan_id db' res, executePlan demoDbBlocked plan_id = .ok (db', res) →
      blockedPreserved demoDbBlocked db') ∧
    (∀ now plan_id,
      blockedPreserved demoDbBlocked ((scheduleFollowupsForPlan demoDbBlocked now plan_id).1)) ∧
    (∀ bid db' res, approveAndExecuteBatchItem demoDbBlocked bid = .ok (db', res) →
      blockedPreserved demoDbBlocked db') :=
  blockedJobs_stay_blocked demoDbBlocked (by decide)

end CareerHuntin
